import Mathlib

/-!
# Logical topology of QMP (`src/lib/QMP_topology.c`)

A shallow embedding of the Cartesian codec (`crtesn_coord`, `crtesn_pos`), of
`QMP_declare_logical_topology` and of the query functions, followed by the
properties of the specification that concern them.

Conventions of the embedding.

* A C `int` is an `Int`; every arithmetic operation whose exact result may leave
  the 32 bit range is followed by `wrap32` (two's complement wrap-around).
  `/` and `%` are the truncating `Int.tdiv` and `Int.tmod` of C.
* A C array is a `List`; `a[i]` is `a.getD i 0` and `a[i] = v` is `a.set i v`.
  Loop counters and array indices are `Nat`.
* The contents of freshly allocated memory are a parameter (`heap`), so that no
  result can depend on them by accident.
* The globals `remap` and `QMP_topo` are threaded explicitly (`Globals`);
  `QMP_global_m` is the read-only record `QMP_machine`.
* `ENTER`, `LEAVE` and `QMP_error` (profiling and diagnostics) do not touch these
  globals and are left out; `QMP_FATAL` on a failed allocation ends the process and is
  outside the model.
* `remap_axes` exists in two variants chosen at build time; the functions that call it
  take the variant as an argument.
-/

namespace QMP

/-! ## Machine integers -/

/-- Largest C `int`. -/
def INT_MAX : Int := 2147483647

/-- Smallest C `int`. -/
def INT_MIN : Int := -2147483648

/-- The `int` that a 32 bit two's complement machine stores for the exact value `x`. -/
def wrap32 (x : Int) : Int := (x + 2147483648) % 4294967296 - 2147483648

/-- C `a * b` on `int`. -/
def c_mul (a b : Int) : Int := wrap32 (a * b)

/-- C `a + b` on `int`. -/
def c_add (a b : Int) : Int := wrap32 (a + b)

/-- C `a - b` on `int`. -/
def c_sub (a b : Int) : Int := wrap32 (a - b)

/-- C `a / b` on `int`: truncation towards zero (`INT_MIN / -1` wraps). -/
def c_div (a b : Int) : Int := wrap32 (Int.tdiv a b)

/-- C `a % b` on `int`: the remainder has the sign of `a`. -/
def c_mod (a b : Int) : Int := Int.tmod a b

/-! ## Data -/

/-- Modelled from the spec: the status type of `QMP_P_COMMON.h`, which is not among the
sources; these are the two values the topology code returns. -/
inductive QMP_status_t where
  | QMP_SUCCESS
  | QMP_INVALID_ARG
  deriving DecidableEq, Repr

/-- Modelled from the spec: the interconnect kind flag of `QMP_P_COMMON.h`, which
is not among the sources; the spec names a switch and a fixed physical mesh. -/
inductive QMP_ictype_t where
  | QMP_SWITCH
  | QMP_MESH
  deriving DecidableEq, Repr

/-- The fields of `QMP_global_m` that the topology code reads (the record is declared
in `QMP_P_COMMON.h`, which is not among the sources). -/
structure QMP_machine where
  num_nodes : Int
  nodeid : Int
  ic_type : QMP_ictype_t
  ndim : Int
  geom : List Int
  deriving DecidableEq, Repr

/-- The fields of `QMP_topo` that the topology code writes (the record is declared in
`QMP_P_COMMON.h`). `neigh0` and `neigh1` are `neigh[0]` and `neigh[1]`, the two halves
of the single allocation of `2*ndim` ints. -/
structure QMP_topology where
  dimension : Int
  logical_size : List Int
  logical_coord : List Int
  neigh0 : List Int
  neigh1 : List Int
  topology_declared : Bool
  deriving DecidableEq, Repr

/-- The mutable globals of the file: the static array `remap` and `QMP_topo`. -/
structure Globals where
  remap : List Nat
  QMP_topo : QMP_topology
  deriving DecidableEq, Repr

/-- `malloc (n * sizeof (int))`: `n` cells holding whatever the heap held. -/
def malloc (heap : Nat → Int) (n : Nat) : List Int := (List.range n).map heap

/-! ## Axis remap, identity variant (lines 89-95) -/

/-- `remap_axes` without `HAVE_BGL`: `remap[i] = i` for `i < ndim`. The geometry is
not consulted. -/
def remap_axes (_dims : List Int) (ndim : Nat) : List Nat := List.range ndim

/-! ## Cartesian codec (lines 149-170) -/

/-- One iteration of the loop of `crtesn_coord`, on the pair `(ipos, coordf)`. -/
def crtesn_coord_step (remap : List Nat) (latt_size : List Int)
    (st : Int × List Int) (i : Nat) : Int × List Int :=
  let ir := remap.getD i 0
  (c_div st.1 (latt_size.getD ir 0), st.2.set ir (c_mod st.1 (latt_size.getD ir 0)))

/-- `crtesn_coord (ipos, coordf, latt_size, ndim)`: the contents of `coordf` after
the call; the argument `coordf` is its contents before. -/
def crtesn_coord (remap : List Nat) (ipos : Int) (coordf latt_size : List Int)
    (ndim : Nat) : List Int :=
  ((List.range ndim).foldl (crtesn_coord_step remap latt_size) (ipos, coordf)).2

/-- The loop of `crtesn_pos` with `k + 1` iterations left, that is at index `k`,
running down to index `0`. -/
def crtesn_pos_loop (remap : List Nat) (coordf latt_size : List Int) : Nat → Int → Int
  | 0, ipos => ipos
  | k + 1, ipos =>
    let kr := remap.getD k 0
    crtesn_pos_loop remap coordf latt_size k
      (c_add (c_mul ipos (latt_size.getD kr 0)) (coordf.getD kr 0))

/-- `crtesn_pos (coordf, latt_size, ndim)`. -/
def crtesn_pos (remap : List Nat) (coordf latt_size : List Int) (ndim : Nat) : Int :=
  crtesn_pos_loop remap coordf latt_size ndim 0

/-! ## Declaring the topology (lines 173-259) -/

/-- The first validation loop (lines 187-195) over the indices still to visit:
`none` when some extent is below `1`, otherwise the running product. -/
def check_lengths (dims : List Int) : List Nat → Int → Option Int
  | [], num_nodes => some num_nodes
  | i :: rest, num_nodes =>
    if dims.getD i 0 < 1 then none
    else check_lengths dims rest (c_mul num_nodes (dims.getD i 0))

/-- The test of lines 204-217: on an interconnect other than a switch the request
differs from the machine geometry. -/
def geometry_mismatch (m : QMP_machine) (dims : List Int) (ndim : Int) : Bool :=
  m.ic_type != QMP_ictype_t.QMP_SWITCH &&
    (ndim != m.ndim ||
      (List.range ndim.toNat).any (fun i => dims.getD i 0 != m.geom.getD i 0))

/-- The local array `coord` of the neighbour loop after lines 240-241. -/
def copy_coord (logical_coord : List Int) (ndim : Nat) : List Int :=
  (List.range ndim).map (fun m => logical_coord.getD m 0)

/-- Line 243: the coordinate of the previous node along axis `i`. -/
def prev_coord (logical_coord dims : List Int) (i : Nat) : Int :=
  c_mod (c_add (c_sub (logical_coord.getD i 0) 1) (dims.getD i 0)) (dims.getD i 0)

/-- Line 247: the coordinate of the next node along axis `i`. -/
def next_coord (logical_coord dims : List Int) (i : Nat) : Int :=
  c_mod (c_add (logical_coord.getD i 0) 1) (dims.getD i 0)

/-- Lines 219-254 of `QMP_declare_logical_topology`, reached once the arguments are
accepted (so `ndim >= 0`): the globals after the call. -/
def build_topology (remap_axes : List Int → Nat → List Nat) (heap : Nat → Int)
    (m : QMP_machine) (dims : List Int) (ndim : Int) : Globals :=
  let n := ndim.toNat
  let remap := remap_axes dims n
  let logical_size := (List.range n).map (fun i => dims.getD i 0)
  let logical_coord := crtesn_coord remap m.nodeid (malloc heap n) logical_size n
  let coord := copy_coord logical_coord n
  let neigh0 := (List.range n).map (fun i =>
    crtesn_pos remap (coord.set i (prev_coord logical_coord dims i)) logical_size n)
  let neigh1 := (List.range n).map (fun i =>
    crtesn_pos remap (coord.set i (next_coord logical_coord dims i)) logical_size n)
  { remap := remap,
    QMP_topo :=
      { dimension := ndim
        logical_size := logical_size
        logical_coord := logical_coord
        neigh0 := neigh0
        neigh1 := neigh1
        topology_declared := true } }

/-- `QMP_declare_logical_topology (dims, ndim)`: the status and the globals after the
call. `remap_axes` is the variant of the axis resolver the library was built with,
`heap` the contents of fresh memory, `m` the machine record and `s` the globals before
the call. Allocation is assumed to succeed (its failure aborts the process). -/
def QMP_declare_logical_topology (remap_axes : List Int → Nat → List Nat)
    (heap : Nat → Int) (m : QMP_machine) (s : Globals) (dims : List Int) (ndim : Int) :
    QMP_status_t × Globals :=
  if ndim < 0 then (QMP_status_t.QMP_INVALID_ARG, s)
  else
    match check_lengths dims (List.range ndim.toNat) 1 with
    | none => (QMP_status_t.QMP_INVALID_ARG, s)
    | some num_nodes =>
      if num_nodes ≠ m.num_nodes then (QMP_status_t.QMP_INVALID_ARG, s)
      else if geometry_mismatch m dims ndim then (QMP_status_t.QMP_INVALID_ARG, s)
      else (QMP_status_t.QMP_SUCCESS, build_topology remap_axes heap m dims ndim)

/-! ## Queries (lines 261-327) -/

/-- `QMP_logical_topology_is_declared ()`. -/
def QMP_logical_topology_is_declared (s : Globals) : Bool := s.QMP_topo.topology_declared

/-- `QMP_get_logical_number_of_dimensions ()`. -/
def QMP_get_logical_number_of_dimensions (s : Globals) : Int := s.QMP_topo.dimension

/-- `QMP_get_logical_dimensions ()`. -/
def QMP_get_logical_dimensions (s : Globals) : List Int := s.QMP_topo.logical_size

/-- `QMP_get_logical_coordinates ()`. -/
def QMP_get_logical_coordinates (s : Globals) : List Int := s.QMP_topo.logical_coord

/-- `QMP_get_logical_coordinates_from (node)`: the freshly allocated array. -/
def QMP_get_logical_coordinates_from (heap : Nat → Int) (s : Globals) (node : Int) :
    List Int :=
  crtesn_coord s.remap node (malloc heap s.QMP_topo.dimension.toNat)
    s.QMP_topo.logical_size s.QMP_topo.dimension.toNat

/-- `QMP_get_node_number_from (coordinates)`. -/
def QMP_get_node_number_from (s : Globals) (coordinates : List Int) : Int :=
  crtesn_pos s.remap coordinates s.QMP_topo.logical_size s.QMP_topo.dimension.toNat


/-- The state `(ipos, coordf)` of `crtesn_coord` after `j` iterations. -/
def coord_fold (remap : List Nat) (latt_size : List Int) (ipos : Int) (coordf : List Int)
    (j : Nat) : Int × List Int :=
  (List.range j).foldl (crtesn_coord_step remap latt_size) (ipos, coordf)

/-! ## A small machine used to instantiate the theorems -/

/-- Six nodes on a switch; this node is number 5. -/
def machine6 : QMP_machine := ⟨6, 5, QMP_ictype_t.QMP_SWITCH, 0, []⟩

/-- The globals before any declaration. -/
def undeclared : Globals := ⟨[], ⟨0, [], [], [], [], false⟩⟩

/-- The globals of node 5 of `machine6` after declaring the geometry `[2, 3]` with the
identity remap. -/
def declared6 : Globals := ⟨[0, 1], ⟨2, [2, 3], [1, 2], [4, 3], [4, 1], true⟩⟩

/-- One axis of `2^30 + 1` nodes on a switch; this node is the last one, `2^30`. -/
def machine_long : QMP_machine := ⟨1073741825, 1073741824, QMP_ictype_t.QMP_SWITCH, 0, []⟩

/-- The globals of `machine_long` after declaring the geometry `[2^30 + 1]`. -/
def declared_long : Globals :=
  ⟨[0], ⟨1, [1073741825], [1073741824], [-1073741823], [0], true⟩⟩

/-- A switch of `65536` nodes; this node is number 0. -/
def machine_wide : QMP_machine := ⟨65536, 0, QMP_ictype_t.QMP_SWITCH, 0, []⟩

/-- The globals of `machine_wide` after declaring the geometry `[65536, 65537]`, whose
product `2^32 + 65536` wraps to the node count. -/
def declared_wide : Globals :=
  ⟨[0, 1], ⟨2, [65536, 65537], [0, 0], [65535, 0], [1, 65536], true⟩⟩
/-! ## Devices of the proofs: the codec in exact arithmetic -/

/-- Extent of the `i`-th axis in traversal order, `latt_size[remap[i]]`. -/
def axis (remap : List Nat) (latt_size : List Int) (i : Nat) : Int :=
  latt_size.getD (remap.getD i 0) 0

/-- Product of the extents of the first `j` axes in traversal order. -/
def stride (remap : List Nat) (latt_size : List Int) (j : Nat) : Int :=
  ((List.range j).map (axis remap latt_size)).prod

/-- The loop of `crtesn_pos` over the integers, without wrap-around. -/
def pos_exact (remap : List Nat) (coordf latt_size : List Int) : Nat → Int → Int
  | 0, ipos => ipos
  | k + 1, ipos =>
    pos_exact remap coordf latt_size k
      (ipos * axis remap latt_size k + coordf.getD (remap.getD k 0) 0)

/-- The exact product of the first `ndim` extents. -/
def dims_product (dims : List Int) (ndim : Nat) : Int :=
  ((List.range ndim).map (fun i => dims.getD i 0)).prod

/-- Every extent among the first `ndim` entries is at least `1`. -/
def PositiveDims (dims : List Int) (ndim : Nat) : Prop :=
  ∀ i, i < ndim → 1 ≤ dims.getD i 0

/-- The coordinate `c` lies in the grid: `0 <= c[i] < dims[i]` on every axis. -/
def InGrid (c dims : List Int) (ndim : Nat) : Prop :=
  ∀ i, i < ndim → 0 ≤ c.getD i 0 ∧ c.getD i 0 < dims.getD i 0


/-! ## The neighbour tables of all nodes -/

/-- The value `neigh[1][i]` that `QMP_declare_logical_topology (dims, ndim)` computes on
the node whose id is `k` (the machine record `m` with `nodeid` replaced by `k`). -/
def NEXT (remap_axes : List Int → Nat → List Nat) (heap : Nat → Int) (m : QMP_machine)
    (s : Globals) (dims : List Int) (ndim : Int) (i : Nat) (k : Int) : Int :=
  (QMP_declare_logical_topology remap_axes heap { m with nodeid := k } s dims
    ndim).2.QMP_topo.neigh1.getD i 0

/-- The value `neigh[0][i]` that `QMP_declare_logical_topology (dims, ndim)` computes on
the node whose id is `k`. -/
def PREV (remap_axes : List Int → Nat → List Nat) (heap : Nat → Int) (m : QMP_machine)
    (s : Globals) (dims : List Int) (ndim : Int) (i : Nat) (k : Int) : Int :=
  (QMP_declare_logical_topology remap_axes heap { m with nodeid := k } s dims
    ndim).2.QMP_topo.neigh0.getD i 0

/-- The coordinate that the call computes for node `k`: `crtesn_coord` into a fresh
array, with the stored sizes. -/
def decode_node (remap : List Nat) (heap : Nat → Int) (dims : List Int) (n : Nat)
    (k : Int) : List Int :=
  crtesn_coord remap k (malloc heap n) ((List.range n).map (fun i => dims.getD i 0)) n

/-- The node id that the call computes for the coordinate `c`: `crtesn_pos` with the
stored sizes. -/
def encode_coord (remap : List Nat) (dims : List Int) (n : Nat) (c : List Int) : Int :=
  crtesn_pos remap c ((List.range n).map (fun i => dims.getD i 0)) n

/-- A grid the codec handles without overflow: `remap` permutes the `n` axes, every
extent is at least `1` and the product of the extents is an `int`. -/
def ValidGrid (remap : List Nat) (dims : List Int) (n : Nat) : Prop :=
  remap.Perm (List.range n) ∧ PositiveDims dims n ∧ dims_product dims n ≤ INT_MAX

/-! ## Axis remap, BG/L variant (lines 99-145) -/

/-- Lines 109-113, the body of the inner loop of `sort`: exchange `index[i]` and
`index[j]` when `key[index[i]] < key[index[j]]`. -/
def sort_step (key : List Int) (i : Nat) (index : List Nat) (j : Nat) : List Nat :=
  if key.getD (index.getD i 0) 0 < key.getD (index.getD j 0) 0 then
    (index.set i (index.getD j 0)).set j (index.getD i 0)
  else index

/-- Lines 108-114, the inner loop of `sort`: `j` runs from `i + 1` to `n - 1`. -/
def sort_inner (key : List Int) (n : Nat) (index : List Nat) (i : Nat) : List Nat :=
  (List.range' (i + 1) (n - (i + 1))).foldl (sort_step key i) index

/-- `sort (index, key, n)`: the contents of `index` after the call. Line 105 fills it
with `0 .. n-1`; the outer loop runs `i` from `0` to `n - 1`. -/
def sort (key : List Int) (n : Nat) : List Nat :=
  (List.range n).foldl (sort_inner key n) (List.range n)

/-- The fields of the `BGLPersonality` record (system header `bglpersonality.h`) that
`remap_axes` reads: the three torus extents, and whether `opFlags` has the virtual node
mode bit set. -/
structure BGLPersonality where
  xSize : Int
  ySize : Int
  zSize : Int
  virtual_node_mode : Bool
  deriving DecidableEq, Repr

/-- Lines 128-131: the array `bgl_dims` of the four physical extents. -/
def bgl_dims_of (pers : BGLPersonality) : List Int :=
  [pers.xSize, pers.ySize, pers.zSize, if pers.virtual_node_mode then 2 else 1]

/-- Lines 139-140: the position `k` that iteration `i` writes, `bgl_index[i]` for
`i < bgl_ndim = 4` and `i` otherwise. -/
def remap_target (bgl_index : List Nat) (i : Nat) : Nat :=
  if i < 4 then bgl_index.getD i 0 else i

/-- The positions `k` at which line 141 writes `remap[k]`, in the order of the loop. -/
def remap_writes (bgl_dims : List Int) (ndim : Nat) : List Nat :=
  (List.range ndim).map (remap_target (sort bgl_dims 4))

/-- Lines 132-142 of the BG/L `remap_axes`, for the physical extents `bgl_dims`: the
contents of `remap` after the call. `fresh` is the content of the newly allocated
`remap`; a write outside the array is dropped. -/
def remap_axes_bgl (bgl_dims : List Int) (fresh : Nat → Nat) (dims : List Int)
    (ndim : Nat) : List Nat :=
  (List.range ndim).foldl
    (fun remap i => remap.set (remap_target (sort bgl_dims 4) i) ((sort dims ndim).getD i 0))
    ((List.range ndim).map fresh)

/-- `remap_axes` with `HAVE_BGL`, for the personality `pers` returned by
`rts_get_personality`. -/
def remap_axes_HAVE_BGL (pers : BGLPersonality) (fresh : Nat → Nat) (dims : List Int)
    (ndim : Nat) : List Nat :=
  remap_axes_bgl (bgl_dims_of pers) fresh dims ndim

/-- The personality of a BG/L partition of `8 x 8 x 16` nodes, no virtual node mode. -/
def bgl_8x8x16 : BGLPersonality := ⟨8, 8, 16, false⟩

/-- Node 5 of the `1024` nodes of that partition, on a switch. -/
def machine_bgl : QMP_machine := ⟨1024, 5, QMP_ictype_t.QMP_SWITCH, 0, []⟩

/-- The globals of `machine_bgl` after the BG/L build declared `[32, 32]`, when the fresh
`remap` array held `1` and the fresh coordinate array held `7777`. -/
def declared_bgl_square : Globals :=
  ⟨[1, 1], ⟨2, [32, 32], [7777, 0], [0, 1023], [0, 33], true⟩⟩

/-- The globals of `machine_bgl` after the BG/L build declared `[1024, 1]`, with the same
fresh memory. -/
def declared_bgl_line : Globals :=
  ⟨[1, 1], ⟨2, [1024, 1], [7777, 0], [0, 0], [0, 0], true⟩⟩

/-! ## Devices of the proofs about `sort` -/

/-- The key of the entry at position `p` of `index`, `key[index[p]]`. -/
def keyAt (key : List Int) (index : List Nat) (p : Nat) : Int :=
  key.getD (index.getD p 0) 0

/-- The array `index` of `n` entries holds each of `0 .. n-1` once. -/
def IsPermArr (index : List Nat) (n : Nat) : Prop :=
  index.length = n ∧ (∀ p, p < n → index.getD p 0 < n)
    ∧ ∀ p q, p < n → q < n → index.getD p 0 = index.getD q 0 → p = q

/-- The first `m` positions hold keys that are at least every key to their right. -/
def SortedUpTo (key : List Int) (n m : Nat) (index : List Nat) : Prop :=
  ∀ p q, p < m → p < q → q < n → keyAt key index q ≤ keyAt key index p

/-- Position `i` holds a key that is at least every key at the positions `i+1 .. j-1`. -/
def MaxSoFar (key : List Int) (i j : Nat) (index : List Nat) : Prop :=
  ∀ q, i < q → q < j → keyAt key index q ≤ keyAt key index i
/-! ## Machine arithmetic -/

theorem wrap32_of_range {x : Int} (h0 : INT_MIN ≤ x) (h1 : x ≤ INT_MAX) : wrap32 x = x := by
  unfold INT_MIN at h0
  unfold INT_MAX at h1
  unfold wrap32
  omega

theorem wrap32_emod (x : Int) : wrap32 x % 4294967296 = x % 4294967296 := by
  unfold wrap32
  omega

theorem wrap32_congr {x y : Int} (h : x % 4294967296 = y % 4294967296) :
    wrap32 x = wrap32 y := by
  unfold wrap32
  omega

theorem wrap32_mul_add (a b c : Int) :
    wrap32 (wrap32 (wrap32 a * b) + c) = wrap32 (a * b + c) := by
  apply wrap32_congr
  have h1 : (wrap32 a * b) % 4294967296 = (a * b) % 4294967296 := by
    rw [Int.mul_emod, wrap32_emod, ← Int.mul_emod]
  rw [Int.add_emod, wrap32_emod, h1, ← Int.add_emod]

theorem c_div_of_nonneg {a b : Int} (ha : 0 ≤ a) (ha' : a ≤ INT_MAX) (hb : 1 ≤ b) :
    c_div a b = a / b := by
  unfold c_div
  rw [Int.tdiv_eq_ediv ha (by omega)]
  apply wrap32_of_range
  · have : 0 ≤ a / b := Int.ediv_nonneg ha (by omega)
    unfold INT_MIN
    omega
  · exact le_trans (Int.ediv_le_self b ha) ha'

theorem c_mod_of_nonneg {a b : Int} (ha : 0 ≤ a) (hb : 1 ≤ b) : c_mod a b = a % b := by
  unfold c_mod
  exact Int.tmod_eq_emod ha (by omega)

theorem ediv_ediv_pos (a : Int) {b c : Int} (hb : 0 < b) (hc : 0 < c) :
    a / b / c = a / (b * c) := by
  have hbc : 0 < b * c := Int.mul_pos hb hc
  have hr0 : 0 ≤ a % (b * c) := Int.emod_nonneg a (ne_of_gt hbc)
  have hr1 : a % (b * c) < b * c := Int.emod_lt_of_pos a hbc
  have ha : a = a % (b * c) + b * (c * (a / (b * c))) := by
    have := Int.emod_add_ediv a (b * c)
    rw [mul_assoc] at this
    exact this.symm
  have h1 : a / b = a % (b * c) / b + c * (a / (b * c)) := by
    conv_lhs => rw [ha]
    exact Int.add_mul_ediv_left _ _ (ne_of_gt hb)
  have h2 : a % (b * c) / b / c = 0 := by
    apply Int.ediv_eq_zero_of_lt (Int.ediv_nonneg hr0 (le_of_lt hb))
    exact Int.ediv_lt_of_lt_mul hb (by rw [mul_comm c b]; exact hr1)
  rw [h1, Int.add_mul_ediv_left _ _ (ne_of_gt hc), h2, zero_add]

/-! ## Strides -/

theorem stride_zero (remap : List Nat) (latt_size : List Int) : stride remap latt_size 0 = 1 := by
  simp [stride]

theorem stride_succ (remap : List Nat) (latt_size : List Int) (j : Nat) :
    stride remap latt_size (j + 1) = stride remap latt_size j * axis remap latt_size j := by
  simp [stride, List.range_succ]

theorem stride_pos (remap : List Nat) (latt_size : List Int) (j : Nat)
    (h : ∀ i, i < j → 1 ≤ axis remap latt_size i) : 0 < stride remap latt_size j := by
  induction j with
  | zero => simp [stride_zero]
  | succ j ih =>
    rw [stride_succ]
    have h1 := ih (fun i hi => h i (Nat.lt_succ_of_lt hi))
    have h2 := h j (Nat.lt_succ_self j)
    exact Int.mul_pos h1 (by omega)

/-! ## Arrays -/

theorem getD_set_self (l : List Int) (i : Nat) (v : Int) (h : i < l.length) :
    (l.set i v).getD i 0 = v := by
  simp [List.getD_eq_getElem?_getD, List.getElem?_set, h]

theorem getD_set_ne (l : List Int) {i j : Nat} (v : Int) (h : i ≠ j) :
    (l.set i v).getD j 0 = l.getD j 0 := by
  simp [List.getD_eq_getElem?_getD, List.getElem?_set, h]

theorem list_eq_of_getD {l₁ l₂ : List Int} (hlen : l₁.length = l₂.length)
    (h : ∀ i, i < l₁.length → l₁.getD i 0 = l₂.getD i 0) : l₁ = l₂ := by
  apply List.ext_getElem hlen
  intro i h1 h2
  have := h i h1
  rwa [List.getD_eq_getElem l₁ 0 h1, List.getD_eq_getElem l₂ 0 h2] at this

theorem map_getD_range (l : List Int) : (List.range l.length).map (fun i => l.getD i 0) = l := by
  apply List.ext_getElem
  · simp
  · intro i h1 h2
    simp only [List.getElem_map, List.getElem_range]
    exact List.getD_eq_getElem l 0 h2

theorem getD_map_range (f : Nat → Int) {n i : Nat} (h : i < n) :
    ((List.range n).map f).getD i 0 = f i := by
  simp [List.getD_eq_getElem?_getD, h]

/-! ## Permutations of the axes -/

theorem perm_length {remap : List Nat} {n : Nat} (h : remap.Perm (List.range n)) :
    remap.length = n := by
  simpa using h.length_eq

theorem perm_lt {remap : List Nat} {n : Nat} (h : remap.Perm (List.range n)) {i : Nat}
    (hi : i < n) : remap.getD i 0 < n := by
  have hl := perm_length h
  have hi' : i < remap.length := by omega
  rw [List.getD_eq_getElem remap 0 hi']
  have : remap[i] ∈ List.range n := h.subset (List.getElem_mem hi')
  simpa using this

theorem perm_inj {remap : List Nat} {n : Nat} (h : remap.Perm (List.range n)) {i j : Nat}
    (hi : i < n) (hj : j < n) (e : remap.getD i 0 = remap.getD j 0) : i = j := by
  have hl := perm_length h
  have hi' : i < remap.length := by omega
  have hj' : j < remap.length := by omega
  rw [List.getD_eq_getElem remap 0 hi', List.getD_eq_getElem remap 0 hj'] at e
  have hnd : remap.Nodup := h.symm.nodup (List.nodup_range n)
  exact (List.Nodup.getElem_inj_iff hnd).mp e

theorem perm_surj {remap : List Nat} {n : Nat} (h : remap.Perm (List.range n)) {a : Nat}
    (ha : a < n) : ∃ i, i < n ∧ remap.getD i 0 = a := by
  have hl := perm_length h
  have hmem : a ∈ remap := h.symm.subset (by simpa using ha)
  obtain ⟨i, hi, e⟩ := List.mem_iff_getElem.mp hmem
  exact ⟨i, by omega, by rw [List.getD_eq_getElem remap 0 hi]; exact e⟩

theorem stride_perm {remap : List Nat} {latt_size : List Int} {n : Nat}
    (h : remap.Perm (List.range n)) (hd : latt_size.length = n) :
    stride remap latt_size n = latt_size.prod := by
  have hl := perm_length h
  have h1 : (List.range n).map (axis remap latt_size)
      = remap.map (fun a => latt_size.getD a 0) := by
    apply List.ext_getElem
    · simp [hl]
    · intro i h1 h2
      have hi : i < remap.length := by simpa using h2
      simp only [List.getElem_map, List.getElem_range, axis]
      rw [List.getD_eq_getElem remap 0 hi]
  have h2 : (remap.map (fun a => latt_size.getD a 0)).Perm
      ((List.range n).map (fun a => latt_size.getD a 0)) := h.map _
  unfold stride
  rw [h1, h2.prod_eq, ← hd, map_getD_range]

theorem axis_pos {remap : List Nat} {latt_size : List Int} {n : Nat}
    (h : remap.Perm (List.range n)) (hd : PositiveDims latt_size n) {i : Nat} (hi : i < n) :
    1 ≤ axis remap latt_size i :=
  hd _ (perm_lt h hi)

/-! ## The decoding loop -/

theorem crtesn_coord_eq (remap : List Nat) (ipos : Int) (coordf latt_size : List Int)
    (ndim : Nat) :
    crtesn_coord remap ipos coordf latt_size ndim
      = (coord_fold remap latt_size ipos coordf ndim).2 := rfl

theorem coord_fold_succ (remap : List Nat) (latt_size : List Int) (ipos : Int)
    (coordf : List Int) (j : Nat) :
    coord_fold remap latt_size ipos coordf (j + 1)
      = crtesn_coord_step remap latt_size (coord_fold remap latt_size ipos coordf j) j := by
  simp [coord_fold, List.range_succ, List.foldl_append]

theorem coord_fold_fst {remap : List Nat} {latt_size : List Int} {k : Int} (coordf : List Int)
    (hk0 : 0 ≤ k) (hk1 : k ≤ INT_MAX) (j : Nat)
    (hax : ∀ i, i < j → 1 ≤ axis remap latt_size i) :
    (coord_fold remap latt_size k coordf j).1 = k / stride remap latt_size j := by
  induction j with
  | zero => simp [coord_fold, stride_zero]
  | succ j ih =>
    have hax' : ∀ i, i < j → 1 ≤ axis remap latt_size i :=
      fun i hi => hax i (Nat.lt_succ_of_lt hi)
    have hs := stride_pos remap latt_size j hax'
    have ha := hax j (Nat.lt_succ_self j)
    have hq0 : 0 ≤ k / stride remap latt_size j := Int.ediv_nonneg hk0 (le_of_lt hs)
    have hq1 : k / stride remap latt_size j ≤ INT_MAX :=
      le_trans (Int.ediv_le_self _ hk0) hk1
    rw [coord_fold_succ, stride_succ]
    show c_div (coord_fold remap latt_size k coordf j).1 (axis remap latt_size j) = _
    rw [ih hax', c_div_of_nonneg hq0 hq1 ha, ediv_ediv_pos k hs (by omega)]

theorem coord_fold_length (remap : List Nat) (latt_size : List Int) (k : Int)
    (coordf : List Int) (j : Nat) :
    (coord_fold remap latt_size k coordf j).2.length = coordf.length := by
  induction j with
  | zero => simp [coord_fold]
  | succ j ih => rw [coord_fold_succ]; simp [crtesn_coord_step, ih]

theorem coord_fold_get {remap : List Nat} {latt_size : List Int} {k : Int} {coordf : List Int}
    {n : Nat} (hk0 : 0 ≤ k) (hk1 : k ≤ INT_MAX)
    (hax : ∀ i, i < n → 1 ≤ axis remap latt_size i)
    (hinj : ∀ i j, i < n → j < n → remap.getD i 0 = remap.getD j 0 → i = j)
    (hlt : ∀ i, i < n → remap.getD i 0 < coordf.length)
    (j : Nat) (hj : j ≤ n) (i : Nat) (hi : i < j) :
    (coord_fold remap latt_size k coordf j).2.getD (remap.getD i 0) 0
      = (k / stride remap latt_size i) % axis remap latt_size i := by
  induction j with
  | zero => omega
  | succ j ih =>
    have hax' : ∀ i, i < j → 1 ≤ axis remap latt_size i :=
      fun i hi => hax i (by omega)
    have hs := stride_pos remap latt_size j hax'
    have ha := hax j (by omega)
    have hq0 : 0 ≤ k / stride remap latt_size j := Int.ediv_nonneg hk0 (le_of_lt hs)
    rw [coord_fold_succ]
    show ((coord_fold remap latt_size k coordf j).2.set (remap.getD j 0)
      (c_mod (coord_fold remap latt_size k coordf j).1 (axis remap latt_size j))).getD
        (remap.getD i 0) 0 = _
    by_cases hij : i = j
    · subst hij
      rw [getD_set_self _ _ _ (by rw [coord_fold_length]; exact hlt i (by omega)),
        coord_fold_fst coordf hk0 hk1 i hax', c_mod_of_nonneg hq0 ha]
    · have hne : remap.getD j 0 ≠ remap.getD i 0 := by
        intro e
        exact hij (hinj i j (by omega) (by omega) e.symm)
      rw [getD_set_ne _ _ hne]
      exact ih (by omega) (by omega)

/-! ## The encoding loop -/

theorem crtesn_pos_loop_wrap (remap : List Nat) (coordf latt_size : List Int) (j : Nat)
    (acc : Int) :
    crtesn_pos_loop remap coordf latt_size j (wrap32 acc)
      = wrap32 (pos_exact remap coordf latt_size j acc) := by
  induction j generalizing acc with
  | zero => rfl
  | succ j ih =>
    show crtesn_pos_loop remap coordf latt_size j
      (wrap32 (wrap32 (wrap32 acc * latt_size.getD (remap.getD j 0) 0)
        + coordf.getD (remap.getD j 0) 0)) = _
    rw [wrap32_mul_add, ih]
    rfl

theorem crtesn_pos_wrap (remap : List Nat) (coordf latt_size : List Int) (n : Nat) :
    crtesn_pos remap coordf latt_size n = wrap32 (pos_exact remap coordf latt_size n 0) := by
  have h := crtesn_pos_loop_wrap remap coordf latt_size n 0
  have h0 : wrap32 0 = 0 := by decide
  rw [h0] at h
  exact h

theorem pos_exact_nonneg {remap : List Nat} {coordf latt_size : List Int} (j : Nat)
    (hax : ∀ i, i < j → 1 ≤ axis remap latt_size i)
    (hc : ∀ i, i < j → 0 ≤ coordf.getD (remap.getD i 0) 0)
    (acc : Int) (hacc : 0 ≤ acc) : 0 ≤ pos_exact remap coordf latt_size j acc := by
  induction j generalizing acc with
  | zero => exact hacc
  | succ j ih =>
    show 0 ≤ pos_exact remap coordf latt_size j _
    apply ih (fun i hi => hax i (by omega)) (fun i hi => hc i (by omega))
    have h1 := hax j (by omega)
    have h2 := hc j (by omega)
    have : 0 ≤ acc * axis remap latt_size j := Int.mul_nonneg hacc (by omega)
    omega

/-- Decoding what the exact loop encoded: the quotient by the stride gives back the
accumulator, and every digit gives back the coordinate. -/
theorem pos_exact_decode {remap : List Nat} {coordf latt_size : List Int} (j : Nat)
    (hax : ∀ i, i < j → 1 ≤ axis remap latt_size i)
    (hc : ∀ i, i < j → 0 ≤ coordf.getD (remap.getD i 0) 0
      ∧ coordf.getD (remap.getD i 0) 0 < axis remap latt_size i)
    (acc : Int) :
    pos_exact remap coordf latt_size j acc / stride remap latt_size j = acc
    ∧ ∀ i, i < j →
        (pos_exact remap coordf latt_size j acc / stride remap latt_size i)
          % axis remap latt_size i = coordf.getD (remap.getD i 0) 0 := by
  induction j generalizing acc with
  | zero => simp [pos_exact, stride_zero]
  | succ j ih =>
    have hax' : ∀ i, i < j → 1 ≤ axis remap latt_size i := fun i hi => hax i (by omega)
    have hs := stride_pos remap latt_size j hax'
    have ha := hax j (by omega)
    have hcj := hc j (by omega)
    obtain ⟨h1, h2⟩ := ih hax' (fun i hi => hc i (by omega))
      (acc * axis remap latt_size j + coordf.getD (remap.getD j 0) 0)
    have hstep : pos_exact remap coordf latt_size (j + 1) acc
        = pos_exact remap coordf latt_size j
            (acc * axis remap latt_size j + coordf.getD (remap.getD j 0) 0) := rfl
    rw [hstep]
    constructor
    · rw [stride_succ, ← ediv_ediv_pos _ hs (by omega), h1, add_comm,
        Int.add_mul_ediv_right _ _ (by omega), Int.ediv_eq_zero_of_lt hcj.1 hcj.2, zero_add]
    · intro i hi
      by_cases hij : i = j
      · subst hij
        rw [h1, add_comm, Int.add_mul_emod_self, Int.emod_eq_of_lt hcj.1 hcj.2]
      · exact h2 i (by omega)

/-- Encoding what the decoding loop produced gives back the index. -/
theorem pos_exact_encode {remap : List Nat} (coordf : List Int) {latt_size : List Int}
    {k : Int} (j : Nat)
    (hax : ∀ i, i < j → 1 ≤ axis remap latt_size i)
    (hc : ∀ i, i < j → coordf.getD (remap.getD i 0) 0
      = (k / stride remap latt_size i) % axis remap latt_size i) :
    pos_exact remap coordf latt_size j (k / stride remap latt_size j) = k := by
  induction j with
  | zero => simp [pos_exact, stride_zero]
  | succ j ih =>
    have hax' : ∀ i, i < j → 1 ≤ axis remap latt_size i := fun i hi => hax i (by omega)
    have hs := stride_pos remap latt_size j hax'
    have ha := hax j (by omega)
    show pos_exact remap coordf latt_size j
      (k / stride remap latt_size (j + 1) * axis remap latt_size j
        + coordf.getD (remap.getD j 0) 0) = k
    rw [hc j (by omega), stride_succ, ← ediv_ediv_pos _ hs (by omega),
      Int.ediv_add_emod']
    exact ih hax' (fun i hi => hc i (by omega))

/-! ## Round trips of the codec -/

/-- The digits written by `crtesn_coord`, read back through `remap`. -/
theorem crtesn_coord_digit {remap : List Nat} {latt_size coordf : List Int} {n : Nat} {k : Int}
    (hperm : remap.Perm (List.range n)) (hpos : PositiveDims latt_size n)
    (hbuf : coordf.length = n) (hk0 : 0 ≤ k) (hk1 : k ≤ INT_MAX) {i : Nat} (hi : i < n) :
    (crtesn_coord remap k coordf latt_size n).getD (remap.getD i 0) 0
      = (k / stride remap latt_size i) % axis remap latt_size i := by
  rw [crtesn_coord_eq]
  exact coord_fold_get hk0 hk1 (fun i hi => axis_pos hperm hpos hi)
    (fun i j hi hj e => perm_inj hperm hi hj e)
    (fun i hi => by rw [hbuf]; exact perm_lt hperm hi) n (le_refl n) i hi

theorem crtesn_coord_length (remap : List Nat) (k : Int) (coordf latt_size : List Int)
    (n : Nat) : (crtesn_coord remap k coordf latt_size n).length = coordf.length := by
  rw [crtesn_coord_eq]
  exact coord_fold_length remap latt_size k coordf n

/-- Every decoded coordinate lies in the grid. -/
theorem crtesn_coord_inGrid {remap : List Nat} {latt_size coordf : List Int} {n : Nat} {k : Int}
    (hperm : remap.Perm (List.range n)) (hpos : PositiveDims latt_size n)
    (hbuf : coordf.length = n) (hk0 : 0 ≤ k) (hk1 : k ≤ INT_MAX) :
    InGrid (crtesn_coord remap k coordf latt_size n) latt_size n := by
  intro a ha
  obtain ⟨i, hi, rfl⟩ := perm_surj hperm ha
  rw [crtesn_coord_digit hperm hpos hbuf hk0 hk1 hi]
  have hax : 1 ≤ axis remap latt_size i := axis_pos hperm hpos hi
  have h0 := Int.emod_nonneg (k / stride remap latt_size i)
    (show axis remap latt_size i ≠ 0 by omega)
  have h1 := Int.emod_lt_of_pos (k / stride remap latt_size i)
    (show 0 < axis remap latt_size i by omega)
  exact ⟨h0, h1⟩

/-- Index to coordinate to index, for an index below the exact product of the extents. -/
theorem pos_coord_roundtrip {remap : List Nat} {latt_size coordf : List Int} {n : Nat} {k : Int}
    (hperm : remap.Perm (List.range n)) (hlen : latt_size.length = n)
    (hpos : PositiveDims latt_size n) (hbuf : coordf.length = n)
    (hk0 : 0 ≤ k) (hk1 : k ≤ INT_MAX) (hk : k < latt_size.prod) :
    crtesn_pos remap (crtesn_coord remap k coordf latt_size n) latt_size n = k := by
  have hax : ∀ i, i < n → 1 ≤ axis remap latt_size i := fun i hi => axis_pos hperm hpos hi
  have hz : k / stride remap latt_size n = 0 := by
    rw [stride_perm hperm hlen]
    exact Int.ediv_eq_zero_of_lt hk0 hk
  have henc := pos_exact_encode (crtesn_coord remap k coordf latt_size n) (k := k) n hax
    (fun i hi => crtesn_coord_digit hperm hpos hbuf hk0 hk1 hi)
  rw [hz] at henc
  rw [crtesn_pos_wrap, henc]
  exact wrap32_of_range (by unfold INT_MIN; omega) hk1

/-- The exact position of a coordinate of the grid lies below the product. -/
theorem pos_exact_range {remap : List Nat} {latt_size c : List Int} {n : Nat}
    (hperm : remap.Perm (List.range n)) (hlen : latt_size.length = n)
    (hpos : PositiveDims latt_size n) (hc : InGrid c latt_size n) :
    0 ≤ pos_exact remap c latt_size n 0
      ∧ pos_exact remap c latt_size n 0 < latt_size.prod := by
  have hax : ∀ i, i < n → 1 ≤ axis remap latt_size i := fun i hi => axis_pos hperm hpos hi
  have hd : ∀ i, i < n → 0 ≤ c.getD (remap.getD i 0) 0
      ∧ c.getD (remap.getD i 0) 0 < axis remap latt_size i :=
    fun i hi => hc _ (perm_lt hperm hi)
  have h0 : 0 ≤ pos_exact remap c latt_size n 0 :=
    pos_exact_nonneg n hax (fun i hi => (hd i hi).1) 0 (le_refl 0)
  refine ⟨h0, ?_⟩
  have hq := (pos_exact_decode n hax hd 0).1
  have hs := stride_pos remap latt_size n hax
  rw [← stride_perm hperm hlen]
  have := Int.emod_add_ediv (pos_exact remap c latt_size n 0) (stride remap latt_size n)
  rw [hq, mul_zero, add_zero] at this
  rw [← this]
  exact Int.emod_lt_of_pos _ hs

/-- The machine result of `crtesn_pos` on a coordinate of the grid, when the product of
the extents is an `int`. -/
theorem crtesn_pos_exact {remap : List Nat} {latt_size c : List Int} {n : Nat}
    (hperm : remap.Perm (List.range n)) (hlen : latt_size.length = n)
    (hpos : PositiveDims latt_size n) (hc : InGrid c latt_size n)
    (hprod : latt_size.prod ≤ INT_MAX) :
    crtesn_pos remap c latt_size n = pos_exact remap c latt_size n 0 := by
  obtain ⟨h0, h1⟩ := pos_exact_range hperm hlen hpos hc
  rw [crtesn_pos_wrap]
  exact wrap32_of_range (by unfold INT_MIN; omega) (by omega)

/-- Coordinate to index to coordinate, when the product of the extents is an `int`. -/
theorem coord_pos_roundtrip {remap : List Nat} {latt_size c coordf : List Int} {n : Nat}
    (hperm : remap.Perm (List.range n)) (hlen : latt_size.length = n)
    (hpos : PositiveDims latt_size n) (hclen : c.length = n) (hc : InGrid c latt_size n)
    (hbuf : coordf.length = n) (hprod : latt_size.prod ≤ INT_MAX) :
    crtesn_coord remap (crtesn_pos remap c latt_size n) coordf latt_size n = c := by
  have hax : ∀ i, i < n → 1 ≤ axis remap latt_size i := fun i hi => axis_pos hperm hpos hi
  have hd : ∀ i, i < n → 0 ≤ c.getD (remap.getD i 0) 0
      ∧ c.getD (remap.getD i 0) 0 < axis remap latt_size i :=
    fun i hi => hc _ (perm_lt hperm hi)
  obtain ⟨h0, h1⟩ := pos_exact_range hperm hlen hpos hc
  rw [crtesn_pos_exact hperm hlen hpos hc hprod]
  apply list_eq_of_getD
  · rw [crtesn_coord_length, hbuf, hclen]
  · intro a ha
    rw [crtesn_coord_length, hbuf] at ha
    obtain ⟨i, hi, rfl⟩ := perm_surj hperm ha
    rw [crtesn_coord_digit hperm hpos hbuf h0 (by omega) hi]
    exact (pos_exact_decode n hax hd 0).2 i hi

/-! ## Validation of the arguments -/

theorem wrap32_mul (a b : Int) : wrap32 (wrap32 a * b) = wrap32 (a * b) := by
  apply wrap32_congr
  rw [Int.mul_emod, wrap32_emod, ← Int.mul_emod]

theorem wrap32_bounds (x : Int) : INT_MIN ≤ wrap32 x ∧ wrap32 x ≤ INT_MAX := by
  unfold wrap32 INT_MIN INT_MAX
  omega

theorem wrap32_le_self {x : Int} (h : 0 ≤ x) : wrap32 x ≤ x := by
  unfold wrap32
  omega

theorem check_lengths_some (dims : List Int) (l : List Nat) (acc : Int)
    (h : ∀ i, i ∈ l → 1 ≤ dims.getD i 0) :
    check_lengths dims l (wrap32 acc)
      = some (wrap32 (acc * (l.map (fun i => dims.getD i 0)).prod)) := by
  induction l generalizing acc with
  | nil => simp [check_lengths]
  | cons i rest ih =>
    have hi : ¬ dims.getD i 0 < 1 := by
      have := h i (List.mem_cons_self i rest)
      omega
    have hstep : check_lengths dims (i :: rest) (wrap32 acc)
        = check_lengths dims rest (wrap32 (wrap32 acc * dims.getD i 0)) := by
      show (if dims.getD i 0 < 1 then none
        else check_lengths dims rest (c_mul (wrap32 acc) (dims.getD i 0))) = _
      rw [if_neg hi]
      rfl
    rw [hstep, wrap32_mul, ih _ (fun j hj => h j (List.mem_cons_of_mem i hj))]
    simp [mul_assoc]

theorem check_lengths_none (dims : List Int) (l : List Nat) (acc : Int)
    (h : ∃ i, i ∈ l ∧ dims.getD i 0 < 1) : check_lengths dims l acc = none := by
  induction l generalizing acc with
  | nil =>
    obtain ⟨i, hi, _⟩ := h
    simp at hi
  | cons j rest ih =>
    by_cases hj : dims.getD j 0 < 1
    · show (if dims.getD j 0 < 1 then none
        else check_lengths dims rest (c_mul acc (dims.getD j 0))) = none
      rw [if_pos hj]
    · have hstep : check_lengths dims (j :: rest) acc
          = check_lengths dims rest (c_mul acc (dims.getD j 0)) := by
        show (if dims.getD j 0 < 1 then none
          else check_lengths dims rest (c_mul acc (dims.getD j 0))) = _
        rw [if_neg hj]
      rw [hstep]
      apply ih
      obtain ⟨i, hi, hlt⟩ := h
      rcases List.mem_cons.mp hi with e | hmem
      · subst e
        exact absurd hlt hj
      · exact ⟨i, hmem, hlt⟩

theorem check_lengths_of_positive {dims : List Int} {n : Nat} (h : PositiveDims dims n) :
    check_lengths dims (List.range n) 1 = some (wrap32 (dims_product dims n)) := by
  have h1 : (1 : Int) = wrap32 1 := by decide
  have := check_lengths_some dims (List.range n) 1
    (fun i hi => h i (List.mem_range.mp hi))
  rw [← h1, one_mul] at this
  exact this

theorem check_lengths_of_not_positive {dims : List Int} {n : Nat} (h : ¬ PositiveDims dims n) :
    check_lengths dims (List.range n) 1 = none := by
  apply check_lengths_none
  unfold PositiveDims at h
  push_neg at h
  obtain ⟨i, hi, hlt⟩ := h
  exact ⟨i, List.mem_range.mpr hi, by omega⟩

theorem dims_product_pos {dims : List Int} {n : Nat} (h : PositiveDims dims n) :
    1 ≤ dims_product dims n := by
  induction n with
  | zero => simp [dims_product]
  | succ n ih =>
    have h1 := ih (fun i hi => h i (by omega))
    have h2 := h n (by omega)
    have : dims_product dims (n + 1) = dims_product dims n * dims.getD n 0 := by
      simp [dims_product, List.range_succ]
    rw [this]
    have := Int.mul_le_mul h1 h2 (by omega) (by omega)
    omega

/-- The call succeeds exactly when the four tests of lines 182-217 all pass. -/
theorem declare_success_iff (remap_axes : List Int → Nat → List Nat) (heap : Nat → Int)
    (m : QMP_machine) (s : Globals) (dims : List Int) (ndim : Int) :
    (QMP_declare_logical_topology remap_axes heap m s dims ndim).1 = QMP_status_t.QMP_SUCCESS
      ↔ 0 ≤ ndim ∧ PositiveDims dims ndim.toNat
        ∧ wrap32 (dims_product dims ndim.toNat) = m.num_nodes
        ∧ geometry_mismatch m dims ndim = false := by
  unfold QMP_declare_logical_topology
  by_cases h1 : ndim < 0
  · rw [if_pos h1]
    constructor
    · intro h; cases h
    · intro h; omega
  · rw [if_neg h1]
    by_cases hp : PositiveDims dims ndim.toNat
    · rw [check_lengths_of_positive hp]
      by_cases h3 : wrap32 (dims_product dims ndim.toNat) = m.num_nodes
      · by_cases h4 : geometry_mismatch m dims ndim = true
        · simp [h3, h4]
        · simp [h3, h4, hp]
          omega
      · simp [h3]
    · rw [check_lengths_of_not_positive hp]
      simp [hp]

theorem declare_cases (remap_axes : List Int → Nat → List Nat) (heap : Nat → Int)
    (m : QMP_machine) (s : Globals) (dims : List Int) (ndim : Int) :
    QMP_declare_logical_topology remap_axes heap m s dims ndim
        = (QMP_status_t.QMP_INVALID_ARG, s)
    ∨ QMP_declare_logical_topology remap_axes heap m s dims ndim
        = (QMP_status_t.QMP_SUCCESS, build_topology remap_axes heap m dims ndim) := by
  unfold QMP_declare_logical_topology
  by_cases h1 : ndim < 0
  · rw [if_pos h1]
    exact Or.inl rfl
  · rw [if_neg h1]
    by_cases hp : PositiveDims dims ndim.toNat
    · rw [check_lengths_of_positive hp]
      dsimp only
      by_cases h3 : wrap32 (dims_product dims ndim.toNat) ≠ m.num_nodes
      · rw [if_pos h3]
        exact Or.inl rfl
      · rw [if_neg h3]
        by_cases h4 : geometry_mismatch m dims ndim = true
        · rw [if_pos h4]
          exact Or.inl rfl
        · rw [if_neg h4]
          exact Or.inr rfl
    · rw [check_lengths_of_not_positive hp]
      exact Or.inl rfl

theorem declare_snd_of_success {remap_axes : List Int → Nat → List Nat} {heap : Nat → Int}
    {m : QMP_machine} {s : Globals} {dims : List Int} {ndim : Int}
    (h : (QMP_declare_logical_topology remap_axes heap m s dims ndim).1
      = QMP_status_t.QMP_SUCCESS) :
    (QMP_declare_logical_topology remap_axes heap m s dims ndim).2
      = build_topology remap_axes heap m dims ndim := by
  rcases declare_cases remap_axes heap m s dims ndim with e | e
  · rw [e] at h
    cases h
  · rw [e]

theorem declare_snd_of_invalid {remap_axes : List Int → Nat → List Nat} {heap : Nat → Int}
    {m : QMP_machine} {s : Globals} {dims : List Int} {ndim : Int}
    (h : (QMP_declare_logical_topology remap_axes heap m s dims ndim).1
      = QMP_status_t.QMP_INVALID_ARG) :
    (QMP_declare_logical_topology remap_axes heap m s dims ndim).2 = s := by
  rcases declare_cases remap_axes heap m s dims ndim with e | e
  · rw [e]
  · rw [e] at h
    cases h

/-! ## The declared state -/

theorem remap_axes_perm (dims : List Int) (ndim : Nat) :
    (remap_axes dims ndim).Perm (List.range ndim) :=
  List.Perm.refl _

/-- The stored sizes are the first `n` requested extents. -/
theorem stored_size_facts (dims : List Int) (n : Nat) :
    ((List.range n).map (fun i => dims.getD i 0)).length = n
    ∧ (∀ i, i < n → ((List.range n).map (fun i => dims.getD i 0)).getD i 0 = dims.getD i 0)
    ∧ ((List.range n).map (fun i => dims.getD i 0)).prod = dims_product dims n := by
  refine ⟨by simp, fun i hi => getD_map_range _ hi, rfl⟩

theorem stored_size_positive {dims : List Int} {n : Nat} (h : PositiveDims dims n) :
    PositiveDims ((List.range n).map (fun i => dims.getD i 0)) n := by
  intro i hi
  rw [getD_map_range _ hi]
  exact h i hi

theorem copy_coord_eq {c : List Int} {n : Nat} (h : c.length = n) : copy_coord c n = c := by
  unfold copy_coord
  rw [← h]
  exact map_getD_range c

theorem inGrid_set {c d : List Int} {n i : Nat} {v : Int} (hc : InGrid c d n)
    (hlen : c.length = n) (hi : i < n) (h0 : 0 ≤ v) (h1 : v < d.getD i 0) :
    InGrid (c.set i v) d n := by
  intro a ha
  by_cases e : i = a
  · subst e
    rw [getD_set_self _ _ _ (by omega)]
    exact ⟨h0, h1⟩
  · rw [getD_set_ne _ _ e]
    exact hc a ha

theorem set_getD_self (c : List Int) (i : Nat) (hi : i < c.length) :
    c.set i (c.getD i 0) = c := by
  apply list_eq_of_getD
  · simp
  · intro a _
    by_cases e : i = a
    · subst e
      rw [getD_set_self _ _ _ hi]
    · rw [getD_set_ne _ _ e]

theorem next_coord_eq {c dims : List Int} {i : Nat} (h0 : 0 ≤ c.getD i 0)
    (h1 : c.getD i 0 + 1 ≤ INT_MAX) (hd : 1 ≤ dims.getD i 0) :
    next_coord c dims i = (c.getD i 0 + 1) % dims.getD i 0 := by
  unfold next_coord c_add
  rw [wrap32_of_range (by unfold INT_MIN; omega) h1]
  exact c_mod_of_nonneg (by omega) hd

theorem prev_coord_eq {c dims : List Int} {i : Nat} (h0 : 0 ≤ c.getD i 0)
    (h1 : c.getD i 0 - 1 + dims.getD i 0 ≤ INT_MAX) (hd : 1 ≤ dims.getD i 0) :
    prev_coord c dims i = (c.getD i 0 - 1 + dims.getD i 0) % dims.getD i 0 := by
  unfold prev_coord c_add c_sub
  have hm : c.getD i 0 - 1 ≤ INT_MAX := by omega
  rw [wrap32_of_range (by unfold INT_MIN; omega) hm,
    wrap32_of_range (by unfold INT_MIN; omega) h1]
  exact c_mod_of_nonneg (by omega) hd

/-- Facts about the state built by an accepted call on a node `0 <= nodeid < num_nodes`:
the local coordinate has `n` entries and lies in the grid, and encoding it gives the
node id. -/
theorem local_coord_facts {remap : List Nat} (heap : Nat → Int) {dims : List Int} {n : Nat}
    {nodeid num_nodes : Int}
    (hperm : remap.Perm (List.range n)) (hpos : PositiveDims dims n)
    (hnum : wrap32 (dims_product dims n) = num_nodes)
    (hn0 : 0 ≤ nodeid) (hn1 : nodeid < num_nodes) :
    (crtesn_coord remap nodeid (malloc heap n)
        ((List.range n).map (fun i => dims.getD i 0)) n).length = n
    ∧ InGrid (crtesn_coord remap nodeid (malloc heap n)
        ((List.range n).map (fun i => dims.getD i 0)) n)
        ((List.range n).map (fun i => dims.getD i 0)) n
    ∧ crtesn_pos remap (crtesn_coord remap nodeid (malloc heap n)
        ((List.range n).map (fun i => dims.getD i 0)) n)
        ((List.range n).map (fun i => dims.getD i 0)) n = nodeid
    ∧ num_nodes ≤ INT_MAX := by
  have hb := wrap32_bounds (dims_product dims n)
  rw [hnum] at hb
  have hP := dims_product_pos hpos
  have hle := wrap32_le_self (show 0 ≤ dims_product dims n by omega)
  rw [hnum] at hle
  have hbuf : (malloc heap n).length = n := by simp [malloc]
  obtain ⟨hl, _, hprod⟩ := stored_size_facts dims n
  have hpos' := stored_size_positive hpos
  refine ⟨by rw [crtesn_coord_length, hbuf], ?_, ?_, hb.2⟩
  · exact crtesn_coord_inGrid hperm hpos' hbuf hn0 (by omega)
  · exact pos_coord_roundtrip hperm hl hpos' hbuf hn0 (by omega) (by rw [hprod]; omega)

theorem dims_le_product {dims : List Int} {n : Nat} (h : PositiveDims dims n) {i : Nat}
    (hi : i < n) : dims.getD i 0 ≤ dims_product dims n := by
  induction n with
  | zero => omega
  | succ n ih =>
    have hP := dims_product_pos (fun j hj => h j (by omega) : PositiveDims dims n)
    have hd := h n (by omega)
    have hs : dims_product dims (n + 1) = dims_product dims n * dims.getD n 0 := by
      simp [dims_product, List.range_succ]
    rw [hs]
    by_cases e : i = n
    · subst e
      have := Int.mul_le_mul_of_nonneg_right hP (show 0 ≤ dims.getD i 0 by omega)
      omega
    · have h1 := ih (fun j hj => h j (by omega)) (by omega)
      have := Int.mul_le_mul_of_nonneg_left hd (show 0 ≤ dims_product dims n by omega)
      omega

/-- What a successful call establishes. -/
theorem declare_call {remap_axes : List Int → Nat → List Nat} {heap : Nat → Int}
    {m : QMP_machine} {s s' : Globals} {dims : List Int} {ndim : Int}
    (hcall : QMP_declare_logical_topology remap_axes heap m s dims ndim
      = (QMP_status_t.QMP_SUCCESS, s')) :
    0 ≤ ndim ∧ PositiveDims dims ndim.toNat
      ∧ wrap32 (dims_product dims ndim.toNat) = m.num_nodes
      ∧ geometry_mismatch m dims ndim = false
      ∧ s' = build_topology remap_axes heap m dims ndim := by
  have h1 : (QMP_declare_logical_topology remap_axes heap m s dims ndim).1
      = QMP_status_t.QMP_SUCCESS := by rw [hcall]
  obtain ⟨a, b, c, d⟩ := (declare_success_iff remap_axes heap m s dims ndim).mp h1
  have h2 := declare_snd_of_success h1
  rw [hcall] at h2
  exact ⟨a, b, c, d, h2⟩

theorem neigh0_getD (remap_axes : List Int → Nat → List Nat) (heap : Nat → Int)
    (m : QMP_machine) (dims : List Int) {ndim : Int} {i : Nat} (hi : i < ndim.toNat) :
    (build_topology remap_axes heap m dims ndim).QMP_topo.neigh0.getD i 0
      = crtesn_pos (remap_axes dims ndim.toNat)
          ((copy_coord (build_topology remap_axes heap m dims ndim).QMP_topo.logical_coord
              ndim.toNat).set i
            (prev_coord (build_topology remap_axes heap m dims ndim).QMP_topo.logical_coord
              dims i))
          ((List.range ndim.toNat).map (fun i => dims.getD i 0)) ndim.toNat :=
  getD_map_range _ hi

theorem neigh1_getD (remap_axes : List Int → Nat → List Nat) (heap : Nat → Int)
    (m : QMP_machine) (dims : List Int) {ndim : Int} {i : Nat} (hi : i < ndim.toNat) :
    (build_topology remap_axes heap m dims ndim).QMP_topo.neigh1.getD i 0
      = crtesn_pos (remap_axes dims ndim.toNat)
          ((copy_coord (build_topology remap_axes heap m dims ndim).QMP_topo.logical_coord
              ndim.toNat).set i
            (next_coord (build_topology remap_axes heap m dims ndim).QMP_topo.logical_coord
              dims i))
          ((List.range ndim.toNat).map (fun i => dims.getD i 0)) ndim.toNat :=
  getD_map_range _ hi

theorem build_logical_coord (remap_axes : List Int → Nat → List Nat) (heap : Nat → Int)
    (m : QMP_machine) (dims : List Int) (ndim : Int) :
    (build_topology remap_axes heap m dims ndim).QMP_topo.logical_coord
      = crtesn_coord (remap_axes dims ndim.toNat) m.nodeid (malloc heap ndim.toNat)
          ((List.range ndim.toNat).map (fun i => dims.getD i 0)) ndim.toNat := rfl

/-- Encoding a neighbour coordinate and decoding the result, in the declared state. -/
theorem neighbour_decode {remap : List Nat} {dims c : List Int} {n i : Nat} {v : Int}
    (heap : Nat → Int)
    (hperm : remap.Perm (List.range n)) (hpos : PositiveDims dims n)
    (hprod : dims_product dims n ≤ INT_MAX)
    (hclen : c.length = n)
    (hc : InGrid c ((List.range n).map (fun i => dims.getD i 0)) n)
    (hi : i < n) (h0 : 0 ≤ v) (h1 : v < dims.getD i 0) :
    crtesn_coord remap
        (crtesn_pos remap ((copy_coord c n).set i v)
          ((List.range n).map (fun i => dims.getD i 0)) n)
        (malloc heap n) ((List.range n).map (fun i => dims.getD i 0)) n = c.set i v
    ∧ 0 ≤ crtesn_pos remap ((copy_coord c n).set i v)
          ((List.range n).map (fun i => dims.getD i 0)) n
    ∧ crtesn_pos remap ((copy_coord c n).set i v)
          ((List.range n).map (fun i => dims.getD i 0)) n < dims_product dims n := by
  obtain ⟨hl, hget, hp⟩ := stored_size_facts dims n
  have hpos' := stored_size_positive hpos
  have hg : InGrid (c.set i v) ((List.range n).map (fun i => dims.getD i 0)) n :=
    inGrid_set hc hclen hi h0 (by rw [hget i hi]; exact h1)
  have hprod' : ((List.range n).map (fun i => dims.getD i 0)).prod ≤ INT_MAX := by
    rw [hp]; exact hprod
  rw [copy_coord_eq hclen]
  refine ⟨?_, ?_, ?_⟩
  · exact coord_pos_roundtrip hperm hl hpos' (by simp [hclen]) hg (by simp [malloc]) hprod'
  · rw [crtesn_pos_exact hperm hl hpos' hg hprod']
    exact (pos_exact_range hperm hl hpos' hg).1
  · rw [crtesn_pos_exact hperm hl hpos' hg hprod', ← hp]
    exact (pos_exact_range hperm hl hpos' hg).2

theorem geometry_mismatch_iff (m : QMP_machine) (dims : List Int) (ndim : Int) :
    geometry_mismatch m dims ndim = true
      ↔ m.ic_type ≠ QMP_ictype_t.QMP_SWITCH
        ∧ (ndim ≠ m.ndim ∨ ∃ i, i < ndim.toNat ∧ dims.getD i 0 ≠ m.geom.getD i 0) := by
  simp [geometry_mismatch, List.any_eq_true]

theorem status_invalid_iff (st : QMP_status_t) :
    st = QMP_status_t.QMP_INVALID_ARG ↔ ¬ st = QMP_status_t.QMP_SUCCESS := by
  cases st <;> simp

/-- Without overflow of the running product, a successful call stores a geometry whose
exact product is the node count. -/
theorem declare_product_exact {remap_axes : List Int → Nat → List Nat} {heap : Nat → Int}
    {m : QMP_machine} {s s' : Globals} {dims : List Int} {ndim : Int}
    (hcall : QMP_declare_logical_topology remap_axes heap m s dims ndim
      = (QMP_status_t.QMP_SUCCESS, s'))
    (hov : dims_product dims ndim.toNat ≤ INT_MAX) :
    s'.QMP_topo.logical_size.prod = m.num_nodes := by
  obtain ⟨_, hpos, hnum, _, rfl⟩ := declare_call hcall
  have hP := dims_product_pos hpos
  rw [wrap32_of_range (by unfold INT_MIN; omega) hov] at hnum
  exact hnum

/-! ## The identity remap -/

theorem range_getD {n j : Nat} (h : j < n) : (List.range n).getD j 0 = j := by
  simp [List.getD_eq_getElem?_getD, h]

theorem axis_identity (dims : List Int) {n j : Nat} (h : j < n) :
    axis (remap_axes dims n) dims j = dims.getD j 0 := by
  unfold axis remap_axes
  rw [range_getD h]

theorem stride_identity (dims : List Int) {n i : Nat} (h : i ≤ n) :
    stride (remap_axes dims n) dims i = dims_product dims i := by
  unfold stride dims_product
  congr 1
  apply List.map_congr_left
  intro j hj
  exact axis_identity dims (lt_of_lt_of_le (List.mem_range.mp hj) h)

/-! ## Zero dimensions -/

theorem declare_zero_success_iff (remap_axes : List Int → Nat → List Nat) (heap : Nat → Int)
    (m : QMP_machine) (s : Globals) (dims : List Int) :
    (QMP_declare_logical_topology remap_axes heap m s dims 0).1 = QMP_status_t.QMP_SUCCESS
      ↔ m.num_nodes = 1 ∧ (m.ic_type = QMP_ictype_t.QMP_SWITCH ∨ m.ndim = 0) := by
  rw [declare_success_iff]
  have hp : PositiveDims dims (0 : Int).toNat := by
    intro i hi
    simp at hi
  have hw : wrap32 (dims_product dims (0 : Int).toNat) = 1 := by
    have h1 : dims_product dims (0 : Int).toNat = 1 := by simp [dims_product]
    rw [h1]
    decide
  have hg := geometry_mismatch_iff m dims 0
  constructor
  · rintro ⟨_, _, h3, h4⟩
    rw [hw] at h3
    refine ⟨h3.symm, ?_⟩
    by_contra hcon
    push_neg at hcon
    have : geometry_mismatch m dims 0 = true :=
      hg.mpr ⟨hcon.1, Or.inl (fun e => hcon.2 e.symm)⟩
    rw [this] at h4
    cases h4
  · rintro ⟨h1, h2⟩
    refine ⟨le_refl 0, hp, by rw [hw, h1], ?_⟩
    cases hgm : geometry_mismatch m dims 0
    · rfl
    · obtain ⟨g1, g2⟩ := hg.mp hgm
      rcases g2 with g2 | ⟨i, hi, _⟩
      · rcases h2 with h2 | h2
        · exact absurd h2 g1
        · exact absurd h2.symm g2
      · simp at hi

/-! ## The codec on a valid grid -/

theorem grid_sizes_prod_le {remap : List Nat} {dims : List Int} {n : Nat}
    (hg : ValidGrid remap dims n) :
    ((List.range n).map (fun i => dims.getD i 0)).prod ≤ INT_MAX := hg.2.2

theorem grid_decode_facts {remap : List Nat} (heap : Nat → Int) {dims : List Int} {n : Nat}
    (hg : ValidGrid remap dims n) {k : Int} (hk0 : 0 ≤ k) (hk1 : k < dims_product dims n) :
    (decode_node remap heap dims n k).length = n
    ∧ InGrid (decode_node remap heap dims n k) ((List.range n).map (fun i => dims.getD i 0)) n
    ∧ encode_coord remap dims n (decode_node remap heap dims n k) = k := by
  obtain ⟨hperm, hpos, hprod⟩ := hg
  have hP := dims_product_pos hpos
  have hnum : wrap32 (dims_product dims n) = dims_product dims n :=
    wrap32_of_range (by unfold INT_MIN; omega) hprod
  obtain ⟨h1, h2, h3, _⟩ := local_coord_facts heap hperm hpos hnum hk0 hk1
  exact ⟨h1, h2, h3⟩

theorem grid_encode_facts {remap : List Nat} (heap : Nat → Int) {dims : List Int} {n : Nat}
    (hg : ValidGrid remap dims n) {c : List Int} (hclen : c.length = n)
    (hc : InGrid c ((List.range n).map (fun i => dims.getD i 0)) n) :
    decode_node remap heap dims n (encode_coord remap dims n c) = c
    ∧ 0 ≤ encode_coord remap dims n c
    ∧ encode_coord remap dims n c < dims_product dims n := by
  obtain ⟨hperm, hpos, hprod⟩ := hg
  obtain ⟨hl, _, hp⟩ := stored_size_facts dims n
  have hpos' := stored_size_positive hpos
  have hprod' : ((List.range n).map (fun i => dims.getD i 0)).prod ≤ INT_MAX := by
    rw [hp]; exact hprod
  unfold decode_node encode_coord
  refine ⟨?_, ?_, ?_⟩
  · exact coord_pos_roundtrip hperm hl hpos' hclen hc (by simp [malloc]) hprod'
  · rw [crtesn_pos_exact hperm hl hpos' hc hprod']
    exact (pos_exact_range hperm hl hpos' hc).1
  · rw [crtesn_pos_exact hperm hl hpos' hc hprod', ← hp]
    exact (pos_exact_range hperm hl hpos' hc).2

/-- Two nodes of the grid with the same coordinate are the same node. -/
theorem grid_decode_inj {remap : List Nat} (heap : Nat → Int) {dims : List Int} {n : Nat}
    (hg : ValidGrid remap dims n) {k₁ k₂ : Int}
    (h10 : 0 ≤ k₁) (h11 : k₁ < dims_product dims n)
    (h20 : 0 ≤ k₂) (h21 : k₂ < dims_product dims n)
    (e : decode_node remap heap dims n k₁ = decode_node remap heap dims n k₂) : k₁ = k₂ := by
  have r1 := (grid_decode_facts heap hg h10 h11).2.2
  have r2 := (grid_decode_facts heap hg h20 h21).2.2
  rw [← r1, ← r2, e]

/-- Replacing entry `i` of a coordinate of the grid by a value below `dims[i]`. -/
theorem grid_set {dims c : List Int} {n i : Nat} {v : Int} (hclen : c.length = n)
    (hc : InGrid c ((List.range n).map (fun i => dims.getD i 0)) n) (hi : i < n)
    (h0 : 0 ≤ v) (h1 : v < dims.getD i 0) :
    (c.set i v).length = n
    ∧ InGrid (c.set i v) ((List.range n).map (fun i => dims.getD i 0)) n := by
  obtain ⟨_, hget, _⟩ := stored_size_facts dims n
  exact ⟨by simp [hclen], inGrid_set hc hclen hi h0 (by rw [hget i hi]; exact h1)⟩

/-! ## The neighbours of an arbitrary node -/

theorem declare_success_nodeid {remap_axes : List Int → Nat → List Nat} {heap : Nat → Int}
    {m : QMP_machine} {s : Globals} {dims : List Int} {ndim : Int}
    (h : (QMP_declare_logical_topology remap_axes heap m s dims ndim).1
      = QMP_status_t.QMP_SUCCESS) (k : Int) :
    (QMP_declare_logical_topology remap_axes heap { m with nodeid := k } s dims ndim).2
      = build_topology remap_axes heap { m with nodeid := k } dims ndim := by
  apply declare_snd_of_success
  rw [declare_success_iff] at h ⊢
  exact h

/-- The accepted call on a machine whose node count is the exact product. -/
theorem valid_of_success {remap_axes : List Int → Nat → List Nat} {heap : Nat → Int}
    {m : QMP_machine} {s : Globals} {dims : List Int} {ndim : Int}
    (h : (QMP_declare_logical_topology remap_axes heap m s dims ndim).1
      = QMP_status_t.QMP_SUCCESS)
    (hprod : dims_product dims ndim.toNat = m.num_nodes)
    (hperm : (remap_axes dims ndim.toNat).Perm (List.range ndim.toNat)) :
    ValidGrid (remap_axes dims ndim.toNat) dims ndim.toNat := by
  obtain ⟨_, hpos, hnum, _⟩ := (declare_success_iff remap_axes heap m s dims ndim).mp h
  refine ⟨hperm, hpos, ?_⟩
  have hb := wrap32_bounds (dims_product dims ndim.toNat)
  rw [hnum, ← hprod] at hb
  exact hb.2

theorem build_neigh1 (remap_axes : List Int → Nat → List Nat) (heap : Nat → Int)
    (m : QMP_machine) {dims : List Int} {ndim : Int} {i : Nat}
    (hg : ValidGrid (remap_axes dims ndim.toNat) dims ndim.toNat)
    (hk0 : 0 ≤ m.nodeid) (hk1 : m.nodeid < dims_product dims ndim.toNat)
    (hi : i < ndim.toNat) :
    (build_topology remap_axes heap m dims ndim).QMP_topo.neigh1.getD i 0
      = encode_coord (remap_axes dims ndim.toNat) dims ndim.toNat
          ((decode_node (remap_axes dims ndim.toNat) heap dims ndim.toNat m.nodeid).set i
            (((decode_node (remap_axes dims ndim.toNat) heap dims ndim.toNat m.nodeid).getD i 0
              + 1) % dims.getD i 0)) := by
  obtain ⟨hclen, hc, _⟩ := grid_decode_facts heap hg hk0 hk1
  obtain ⟨_, hget, _⟩ := stored_size_facts dims ndim.toNat
  have hci := hc i hi
  rw [hget i hi] at hci
  have hdi := hg.2.1 i hi
  have hmax : dims.getD i 0 ≤ INT_MAX := le_trans (dims_le_product hg.2.1 hi) hg.2.2
  rw [neigh1_getD remap_axes heap m dims hi, build_logical_coord]
  unfold decode_node at hclen hci ⊢
  rw [next_coord_eq hci.1 (by omega) hdi, copy_coord_eq hclen]
  rfl

theorem build_neigh0 (remap_axes : List Int → Nat → List Nat) (heap : Nat → Int)
    (m : QMP_machine) {dims : List Int} {ndim : Int} {i : Nat}
    (hg : ValidGrid (remap_axes dims ndim.toNat) dims ndim.toNat)
    (hk0 : 0 ≤ m.nodeid) (hk1 : m.nodeid < dims_product dims ndim.toNat)
    (hi : i < ndim.toNat)
    (hov : (decode_node (remap_axes dims ndim.toNat) heap dims ndim.toNat m.nodeid).getD i 0
      - 1 + dims.getD i 0 ≤ INT_MAX) :
    (build_topology remap_axes heap m dims ndim).QMP_topo.neigh0.getD i 0
      = encode_coord (remap_axes dims ndim.toNat) dims ndim.toNat
          ((decode_node (remap_axes dims ndim.toNat) heap dims ndim.toNat m.nodeid).set i
            (((decode_node (remap_axes dims ndim.toNat) heap dims ndim.toNat m.nodeid).getD i 0
              - 1 + dims.getD i 0) % dims.getD i 0)) := by
  obtain ⟨hclen, hc, _⟩ := grid_decode_facts heap hg hk0 hk1
  obtain ⟨_, hget, _⟩ := stored_size_facts dims ndim.toNat
  have hci := hc i hi
  rw [hget i hi] at hci
  have hdi := hg.2.1 i hi
  rw [neigh0_getD remap_axes heap m dims hi, build_logical_coord]
  unfold decode_node at hclen hci hov ⊢
  rw [prev_coord_eq hci.1 hov hdi, copy_coord_eq hclen]
  rfl

theorem NEXT_eq {remap_axes : List Int → Nat → List Nat} {heap : Nat → Int}
    {m : QMP_machine} {s : Globals} {dims : List Int} {ndim : Int} {i : Nat} {k : Int}
    (hsucc : (QMP_declare_logical_topology remap_axes heap m s dims ndim).1
      = QMP_status_t.QMP_SUCCESS)
    (hg : ValidGrid (remap_axes dims ndim.toNat) dims ndim.toNat)
    (hi : i < ndim.toNat) (hk0 : 0 ≤ k) (hk1 : k < dims_product dims ndim.toNat) :
    NEXT remap_axes heap m s dims ndim i k
      = encode_coord (remap_axes dims ndim.toNat) dims ndim.toNat
          ((decode_node (remap_axes dims ndim.toNat) heap dims ndim.toNat k).set i
            (((decode_node (remap_axes dims ndim.toNat) heap dims ndim.toNat k).getD i 0
              + 1) % dims.getD i 0)) := by
  unfold NEXT
  rw [declare_success_nodeid hsucc k]
  exact build_neigh1 remap_axes heap { m with nodeid := k } hg hk0 hk1 hi

theorem PREV_eq {remap_axes : List Int → Nat → List Nat} {heap : Nat → Int}
    {m : QMP_machine} {s : Globals} {dims : List Int} {ndim : Int} {i : Nat} {k : Int}
    (hsucc : (QMP_declare_logical_topology remap_axes heap m s dims ndim).1
      = QMP_status_t.QMP_SUCCESS)
    (hg : ValidGrid (remap_axes dims ndim.toNat) dims ndim.toNat)
    (hi : i < ndim.toNat) (hk0 : 0 ≤ k) (hk1 : k < dims_product dims ndim.toNat)
    (hov : (decode_node (remap_axes dims ndim.toNat) heap dims ndim.toNat k).getD i 0
      - 1 + dims.getD i 0 ≤ INT_MAX) :
    PREV remap_axes heap m s dims ndim i k
      = encode_coord (remap_axes dims ndim.toNat) dims ndim.toNat
          ((decode_node (remap_axes dims ndim.toNat) heap dims ndim.toNat k).set i
            (((decode_node (remap_axes dims ndim.toNat) heap dims ndim.toNat k).getD i 0
              - 1 + dims.getD i 0) % dims.getD i 0)) := by
  unfold PREV
  rw [declare_success_nodeid hsucc k]
  exact build_neigh0 remap_axes heap { m with nodeid := k } hg hk0 hk1 hi hov

/-- The next node along axis `i` is a node of the grid, and its coordinate is that of
`k` with entry `i` advanced by one modulo `dims[i]`. -/
theorem NEXT_facts {remap_axes : List Int → Nat → List Nat} {heap : Nat → Int}
    {m : QMP_machine} {s : Globals} {dims : List Int} {ndim : Int} {i : Nat} {k : Int}
    (hsucc : (QMP_declare_logical_topology remap_axes heap m s dims ndim).1
      = QMP_status_t.QMP_SUCCESS)
    (hg : ValidGrid (remap_axes dims ndim.toNat) dims ndim.toNat)
    (hi : i < ndim.toNat) (hk0 : 0 ≤ k) (hk1 : k < dims_product dims ndim.toNat) :
    0 ≤ NEXT remap_axes heap m s dims ndim i k
    ∧ NEXT remap_axes heap m s dims ndim i k < dims_product dims ndim.toNat
    ∧ decode_node (remap_axes dims ndim.toNat) heap dims ndim.toNat
          (NEXT remap_axes heap m s dims ndim i k)
        = (decode_node (remap_axes dims ndim.toNat) heap dims ndim.toNat k).set i
            (((decode_node (remap_axes dims ndim.toNat) heap dims ndim.toNat k).getD i 0
              + 1) % dims.getD i 0) := by
  obtain ⟨hclen, hc, _⟩ := grid_decode_facts heap hg hk0 hk1
  have hdi := hg.2.1 i hi
  obtain ⟨hl, hin⟩ := grid_set hclen hc hi
    (Int.emod_nonneg
      ((decode_node (remap_axes dims ndim.toNat) heap dims ndim.toNat k).getD i 0 + 1)
      (show dims.getD i 0 ≠ 0 by omega))
    (Int.emod_lt_of_pos _ (show 0 < dims.getD i 0 by omega))
  obtain ⟨e1, e2, e3⟩ := grid_encode_facts heap hg hl hin
  rw [NEXT_eq hsucc hg hi hk0 hk1]
  exact ⟨e2, e3, e1⟩

/-- The previous node along axis `i`, when line 243 does not overflow. -/
theorem PREV_facts {remap_axes : List Int → Nat → List Nat} {heap : Nat → Int}
    {m : QMP_machine} {s : Globals} {dims : List Int} {ndim : Int} {i : Nat} {k : Int}
    (hsucc : (QMP_declare_logical_topology remap_axes heap m s dims ndim).1
      = QMP_status_t.QMP_SUCCESS)
    (hg : ValidGrid (remap_axes dims ndim.toNat) dims ndim.toNat)
    (hi : i < ndim.toNat) (hk0 : 0 ≤ k) (hk1 : k < dims_product dims ndim.toNat)
    (hov : (decode_node (remap_axes dims ndim.toNat) heap dims ndim.toNat k).getD i 0
      - 1 + dims.getD i 0 ≤ INT_MAX) :
    0 ≤ PREV remap_axes heap m s dims ndim i k
    ∧ PREV remap_axes heap m s dims ndim i k < dims_product dims ndim.toNat
    ∧ decode_node (remap_axes dims ndim.toNat) heap dims ndim.toNat
          (PREV remap_axes heap m s dims ndim i k)
        = (decode_node (remap_axes dims ndim.toNat) heap dims ndim.toNat k).set i
            (((decode_node (remap_axes dims ndim.toNat) heap dims ndim.toNat k).getD i 0
              - 1 + dims.getD i 0) % dims.getD i 0) := by
  obtain ⟨hclen, hc, _⟩ := grid_decode_facts heap hg hk0 hk1
  have hdi := hg.2.1 i hi
  obtain ⟨hl, hin⟩ := grid_set hclen hc hi
    (Int.emod_nonneg
      ((decode_node (remap_axes dims ndim.toNat) heap dims ndim.toNat k).getD i 0
        - 1 + dims.getD i 0)
      (show dims.getD i 0 ≠ 0 by omega))
    (Int.emod_lt_of_pos _ (show 0 < dims.getD i 0 by omega))
  obtain ⟨e1, e2, e3⟩ := grid_encode_facts heap hg hl hin
  rw [PREV_eq hsucc hg hi hk0 hk1 hov]
  exact ⟨e2, e3, e1⟩

/-- Entry `i` of a coordinate of the grid, as a number in `[0, dims[i])`. -/
theorem grid_entry {remap : List Nat} (heap : Nat → Int) {dims : List Int} {n : Nat}
    (hg : ValidGrid remap dims n) {k : Int} (hk0 : 0 ≤ k) (hk1 : k < dims_product dims n)
    {i : Nat} (hi : i < n) :
    0 ≤ (decode_node remap heap dims n k).getD i 0
    ∧ (decode_node remap heap dims n k).getD i 0 < dims.getD i 0 := by
  obtain ⟨_, hc, _⟩ := grid_decode_facts heap hg hk0 hk1
  obtain ⟨_, hget, _⟩ := stored_size_facts dims n
  have := hc i hi
  rw [hget i hi] at this
  exact this

/-- Following `NEXT` along axis `i` for `t` steps adds `t` to entry `i` modulo `dims[i]`. -/
theorem NEXT_iterate {remap_axes : List Int → Nat → List Nat} {heap : Nat → Int}
    {m : QMP_machine} {s : Globals} {dims : List Int} {ndim : Int} {i : Nat} {k : Int}
    (hsucc : (QMP_declare_logical_topology remap_axes heap m s dims ndim).1
      = QMP_status_t.QMP_SUCCESS)
    (hg : ValidGrid (remap_axes dims ndim.toNat) dims ndim.toNat)
    (hi : i < ndim.toNat) (hk0 : 0 ≤ k) (hk1 : k < dims_product dims ndim.toNat) (t : Nat) :
    0 ≤ Nat.iterate (NEXT remap_axes heap m s dims ndim i) t k
    ∧ Nat.iterate (NEXT remap_axes heap m s dims ndim i) t k < dims_product dims ndim.toNat
    ∧ decode_node (remap_axes dims ndim.toNat) heap dims ndim.toNat
          (Nat.iterate (NEXT remap_axes heap m s dims ndim i) t k)
        = (decode_node (remap_axes dims ndim.toNat) heap dims ndim.toNat k).set i
            (((decode_node (remap_axes dims ndim.toNat) heap dims ndim.toNat k).getD i 0
              + (t : Int)) % dims.getD i 0) := by
  obtain ⟨hclen, _, _⟩ := grid_decode_facts heap hg hk0 hk1
  obtain ⟨hc0, hc1⟩ := grid_entry heap hg hk0 hk1 hi
  induction t with
  | zero =>
    refine ⟨hk0, hk1, ?_⟩
    show decode_node (remap_axes dims ndim.toNat) heap dims ndim.toNat k = _
    rw [Nat.cast_zero, add_zero, Int.emod_eq_of_lt hc0 hc1,
      set_getD_self _ _ (by rw [hclen]; exact hi)]
  | succ t ih =>
    obtain ⟨h0, h1, hd⟩ := ih
    rw [Function.iterate_succ_apply']
    obtain ⟨n0, n1, nd⟩ := NEXT_facts hsucc hg hi h0 h1
    refine ⟨n0, n1, ?_⟩
    rw [nd, hd, getD_set_self _ _ _ (by rw [hclen]; exact hi), List.set_set,
      Int.emod_add_emod]
    congr 2
    push_cast
    ring

/-! ## Index arrays -/

theorem getD_set_self_nat (l : List Nat) (i : Nat) (v : Nat) (h : i < l.length) :
    (l.set i v).getD i 0 = v := by
  simp [List.getD_eq_getElem?_getD, List.getElem?_set, h]

theorem getD_set_ne_nat (l : List Nat) {i j : Nat} (v : Nat) (h : i ≠ j) :
    (l.set i v).getD j 0 = l.getD j 0 := by
  simp [List.getD_eq_getElem?_getD, List.getElem?_set, h]

/-- Reading the array after the exchange of lines 110-112. -/
theorem swap_getD (l : List Nat) {i j : Nat} (hi : i < l.length) (hj : j < l.length)
    (hij : i ≠ j) (p : Nat) :
    ((l.set i (l.getD j 0)).set j (l.getD i 0)).getD p 0
      = l.getD (if p = i then j else if p = j then i else p) 0 := by
  by_cases hpj : p = j
  · subst hpj
    rw [getD_set_self_nat _ _ _ (by simp; exact hj)]
    simp [Ne.symm hij]
  · rw [getD_set_ne_nat _ _ (Ne.symm hpj)]
    by_cases hpi : p = i
    · subst hpi
      rw [getD_set_self_nat _ _ _ hi]
      simp
    · rw [getD_set_ne_nat _ _ (Ne.symm hpi)]
      simp [hpi, hpj]

theorem isPermArr_range (n : Nat) : IsPermArr (List.range n) n := by
  refine ⟨by simp, fun p hp => by rw [range_getD hp]; exact hp, ?_⟩
  intro p q hp hq e
  rw [range_getD hp, range_getD hq] at e
  exact e

/-- An array that holds each of `0 .. n-1` once is a permutation of `0 .. n-1`. -/
theorem perm_of_isPermArr {l : List Nat} {n : Nat} (h : IsPermArr l n) :
    l.Perm (List.range n) := by
  obtain ⟨hlen, hlt, hinj⟩ := h
  have hnd : l.Nodup := by
    rw [List.nodup_iff_injective_get]
    intro a b e
    have ha : a.1 < n := by rw [← hlen]; exact a.2
    have hb : b.1 < n := by rw [← hlen]; exact b.2
    have e' : l.getD a.1 0 = l.getD b.1 0 := by
      rw [List.getD_eq_getElem l 0 a.2, List.getD_eq_getElem l 0 b.2]
      exact e
    exact Fin.ext (hinj a.1 b.1 ha hb e')
  have hsub : l ⊆ List.range n := by
    intro x hx
    obtain ⟨p, hp, e⟩ := List.mem_iff_getElem.mp hx
    have := hlt p (by omega)
    rw [List.getD_eq_getElem l 0 hp, e] at this
    exact List.mem_range.mpr this
  exact (List.subperm_of_subset hnd hsub).perm_of_length_le (by simp [hlen])

theorem isPermArr_of_perm {l : List Nat} {n : Nat} (h : l.Perm (List.range n)) :
    IsPermArr l n :=
  ⟨perm_length h, fun _ hp => perm_lt h hp, fun _ _ hp hq e => perm_inj h hp hq e⟩

/-! ## The exchange sort -/

theorem sort_step_inv {key : List Int} {n i j : Nat} {index : List Nat}
    (hij : i < j) (hj : j < n) (hperm : IsPermArr index n)
    (hs : SortedUpTo key n i index) (hm : MaxSoFar key i j index) :
    IsPermArr (sort_step key i index j) n
    ∧ SortedUpTo key n i (sort_step key i index j)
    ∧ MaxSoFar key i (j + 1) (sort_step key i index j) := by
  obtain ⟨hlen, hlt, hinj⟩ := hperm
  unfold sort_step
  by_cases hc : key.getD (index.getD i 0) 0 < key.getD (index.getD j 0) 0
  · rw [if_pos hc]
    have hi' : i < index.length := by omega
    have hj' : j < index.length := by omega
    have hne : i ≠ j := by omega
    have hget := swap_getD index hi' hj' hne
    have hkey : ∀ p, keyAt key ((index.set i (index.getD j 0)).set j (index.getD i 0)) p
        = keyAt key index (if p = i then j else if p = j then i else p) := by
      intro p
      unfold keyAt
      rw [hget p]
    have hc' : keyAt key index i < keyAt key index j := hc
    refine ⟨⟨by simp [hlen], ?_, ?_⟩, ?_, ?_⟩
    · intro p hp
      rw [hget p]
      apply hlt
      split_ifs <;> omega
    · intro p q hp hq e
      rw [hget p, hget q] at e
      have := hinj _ _ (by split_ifs <;> omega) (by split_ifs <;> omega) e
      split_ifs at this <;> omega
    · intro p q hp hpq hq
      rw [hkey p, hkey q]
      have hp1 : p ≠ i := by omega
      have hp2 : p ≠ j := by omega
      rw [if_neg hp1, if_neg hp2]
      apply hs p _ hp
      · split_ifs <;> omega
      · split_ifs <;> omega
    · intro q hq1 hq2
      rw [hkey q, hkey i, if_pos rfl, if_neg (by omega : q ≠ i)]
      by_cases hqj : q = j
      · rw [if_pos hqj]
        exact le_of_lt hc'
      · rw [if_neg hqj]
        have := hm q hq1 (by omega)
        omega
  · rw [if_neg hc]
    refine ⟨⟨hlen, hlt, hinj⟩, hs, ?_⟩
    intro q hq1 hq2
    by_cases hqj : q = j
    · subst hqj
      have hc' : ¬ keyAt key index i < keyAt key index q := hc
      omega
    · exact hm q hq1 (by omega)

theorem sort_inner_inv_aux {key : List Int} {n i : Nat} (len : Nat) {index : List Nat}
    (hbound : i + 1 + len ≤ n) (hperm : IsPermArr index n)
    (hs : SortedUpTo key n i index) :
    IsPermArr ((List.range' (i + 1) len).foldl (sort_step key i) index) n
    ∧ SortedUpTo key n i ((List.range' (i + 1) len).foldl (sort_step key i) index)
    ∧ MaxSoFar key i (i + 1 + len)
        ((List.range' (i + 1) len).foldl (sort_step key i) index) := by
  induction len with
  | zero =>
    refine ⟨hperm, hs, ?_⟩
    intro q h1 h2
    omega
  | succ len ih =>
    obtain ⟨h1, h2, h3⟩ := ih (by omega)
    rw [List.range'_concat, List.foldl_append]
    simp only [List.foldl_cons, List.foldl_nil, one_mul]
    exact sort_step_inv (by omega) (by omega) h1 h2 h3

theorem sort_inner_inv {key : List Int} {n i : Nat} {index : List Nat} (hi : i < n)
    (hperm : IsPermArr index n) (hs : SortedUpTo key n i index) :
    IsPermArr (sort_inner key n index i) n
    ∧ SortedUpTo key n (i + 1) (sort_inner key n index i) := by
  obtain ⟨h1, h2, h3⟩ := sort_inner_inv_aux (n - (i + 1)) (by omega) hperm hs
  refine ⟨h1, ?_⟩
  intro p q hp hpq hq
  by_cases e : p = i
  · subst e
    exact h3 q hpq (by omega)
  · exact h2 p q (by omega) hpq hq

theorem sort_outer_inv (key : List Int) (n m : Nat) (hm : m ≤ n) :
    IsPermArr ((List.range m).foldl (sort_inner key n) (List.range n)) n
    ∧ SortedUpTo key n m ((List.range m).foldl (sort_inner key n) (List.range n)) := by
  induction m with
  | zero =>
    refine ⟨isPermArr_range n, ?_⟩
    intro p q hp
    omega
  | succ m ih =>
    obtain ⟨h1, h2⟩ := ih (by omega)
    rw [List.range_succ, List.foldl_append]
    exact sort_inner_inv (by omega) h1 h2

/-- The result of `sort` holds each of `0 .. n-1` once. -/
theorem sort_isPermArr (key : List Int) (n : Nat) : IsPermArr (sort key n) n :=
  (sort_outer_inv key n n (le_refl n)).1

/-- The keys of the result of `sort` never increase from left to right. -/
theorem sort_descending (key : List Int) (n : Nat) {p q : Nat} (hpq : p < q) (hq : q < n) :
    keyAt key (sort key n) q ≤ keyAt key (sort key n) p :=
  (sort_outer_inv key n n (le_refl n)).2 p q (by omega) hpq hq

/-! ## Scattering values into an array -/

theorem scatter_length (t v : Nat → Nat) (init : List Nat) (m : Nat) :
    ((List.range m).foldl (fun r i => r.set (t i) (v i)) init).length = init.length := by
  induction m with
  | zero => rfl
  | succ m ih => rw [List.range_succ, List.foldl_append]; simp [ih]

/-- After the loop `for i < m: r[t i] = v i`, with distinct in-bounds targets, position
`t i` holds `v i`. -/
theorem scatter_getD {t v : Nat → Nat} {init : List Nat} {n : Nat}
    (hinj : ∀ i j, i < n → j < n → t i = t j → i = j)
    (hlt : ∀ i, i < n → t i < init.length)
    (m : Nat) (hm : m ≤ n) (i : Nat) (hi : i < m) :
    ((List.range m).foldl (fun r i => r.set (t i) (v i)) init).getD (t i) 0 = v i := by
  induction m with
  | zero => omega
  | succ m ih =>
    rw [List.range_succ, List.foldl_append]
    simp only [List.foldl_cons, List.foldl_nil]
    by_cases e : i = m
    · subst e
      exact getD_set_self_nat _ _ _ (by rw [scatter_length]; exact hlt i (by omega))
    · have hne : t m ≠ t i := fun h => e (hinj i m (by omega) (by omega) h.symm)
      rw [getD_set_ne_nat _ _ hne]
      exact ih (by omega) (by omega)

theorem getD_map_range_nat (f : Nat → Nat) {n i : Nat} (h : i < n) :
    ((List.range n).map f).getD i 0 = f i := by
  simp [List.getD_eq_getElem?_getD, h]

/-! ## The BG/L remap for at least four logical axes -/

theorem remap_target_lt (bgl_dims : List Int) {ndim i : Nat} (h4 : 4 ≤ ndim) (hi : i < ndim) :
    remap_target (sort bgl_dims 4) i < ndim := by
  unfold remap_target
  split_ifs with h
  · have := (sort_isPermArr bgl_dims 4).2.1 i h
    omega
  · exact hi

theorem remap_target_inj (bgl_dims : List Int) {i j : Nat}
    (e : remap_target (sort bgl_dims 4) i = remap_target (sort bgl_dims 4) j) : i = j := by
  have hP := sort_isPermArr bgl_dims 4
  unfold remap_target at e
  split_ifs at e with h1 h2 h2
  · exact hP.2.2 i j h1 h2 e
  · have := hP.2.1 i h1
    omega
  · have := hP.2.1 j h2
    omega
  · exact e

theorem remap_target_surj (bgl_dims : List Int) {ndim a : Nat} (h4 : 4 ≤ ndim)
    (ha : a < ndim) : ∃ i, i < ndim ∧ remap_target (sort bgl_dims 4) i = a := by
  by_cases h : a < 4
  · obtain ⟨i, hi, e⟩ := perm_surj (perm_of_isPermArr (sort_isPermArr bgl_dims 4)) h
    refine ⟨i, by omega, ?_⟩
    unfold remap_target
    rw [if_pos hi]
    exact e
  · refine ⟨a, ha, ?_⟩
    unfold remap_target
    rw [if_neg h]

/-- For at least four logical axes every write of line 141 is in bounds and every
position is written exactly once. -/
theorem remap_writes_perm (bgl_dims : List Int) {ndim : Nat} (h4 : 4 ≤ ndim) :
    (remap_writes bgl_dims ndim).Perm (List.range ndim) := by
  apply perm_of_isPermArr
  refine ⟨by simp [remap_writes], ?_, ?_⟩
  · intro p hp
    unfold remap_writes
    rw [getD_map_range_nat _ hp]
    exact remap_target_lt bgl_dims h4 hp
  · intro p q hp hq e
    unfold remap_writes at e
    rw [getD_map_range_nat _ hp, getD_map_range_nat _ hq] at e
    exact remap_target_inj bgl_dims e

theorem remap_axes_bgl_length (bgl_dims : List Int) (fresh : Nat → Nat) (dims : List Int)
    (ndim : Nat) : (remap_axes_bgl bgl_dims fresh dims ndim).length = ndim := by
  unfold remap_axes_bgl
  rw [scatter_length]
  simp

/-- For at least four logical axes, the position written at iteration `i` holds the
`i`-th entry of the sorted order of `dims`. -/
theorem remap_axes_bgl_getD (bgl_dims : List Int) (fresh : Nat → Nat) (dims : List Int)
    {ndim i : Nat} (h4 : 4 ≤ ndim) (hi : i < ndim) :
    (remap_axes_bgl bgl_dims fresh dims ndim).getD (remap_target (sort bgl_dims 4) i) 0
      = (sort dims ndim).getD i 0 := by
  unfold remap_axes_bgl
  exact scatter_getD (fun i j _ _ e => remap_target_inj bgl_dims e)
    (fun i hi => by simp; exact remap_target_lt bgl_dims h4 hi) ndim (le_refl _) i hi

theorem remap_axes_bgl_isPermArr (bgl_dims : List Int) (fresh : Nat → Nat) (dims : List Int)
    {ndim : Nat} (h4 : 4 ≤ ndim) : IsPermArr (remap_axes_bgl bgl_dims fresh dims ndim) ndim := by
  have hL := sort_isPermArr dims ndim
  refine ⟨remap_axes_bgl_length bgl_dims fresh dims ndim, ?_, ?_⟩
  · intro p hp
    obtain ⟨i, hi, rfl⟩ := remap_target_surj bgl_dims h4 hp
    rw [remap_axes_bgl_getD bgl_dims fresh dims h4 hi]
    exact hL.2.1 i hi
  · intro p q hp hq e
    obtain ⟨i, hi, rfl⟩ := remap_target_surj bgl_dims h4 hp
    obtain ⟨j, hj, rfl⟩ := remap_target_surj bgl_dims h4 hq
    rw [remap_axes_bgl_getD bgl_dims fresh dims h4 hi,
      remap_axes_bgl_getD bgl_dims fresh dims h4 hj] at e
    rw [hL.2.2 i j hi hj e]

/-- For at least four logical axes the BG/L `remap_axes` returns a permutation. -/
theorem remap_axes_bgl_perm (bgl_dims : List Int) (fresh : Nat → Nat) (dims : List Int)
    {ndim : Nat} (h4 : 4 ≤ ndim) :
    (remap_axes_bgl bgl_dims fresh dims ndim).Perm (List.range ndim) :=
  perm_of_isPermArr (remap_axes_bgl_isPermArr bgl_dims fresh dims h4)

/-! ## The BG/L remap for at most four logical axes -/

/-- A list in which no entry failing `p` precedes an entry satisfying `p` is its
entries satisfying `p` followed by the others. -/
theorem filter_append_of_pairwise (p : Nat → Bool) (l : List Nat)
    (h : l.Pairwise (fun a b => p b = true → p a = true)) :
    l.filter p ++ l.filter (fun a => !p a) = l := by
  induction l with
  | nil => rfl
  | cons a t ih =>
    rw [List.pairwise_cons] at h
    obtain ⟨ha, ht⟩ := h
    by_cases hp : p a = true
    · simp [List.filter_cons, hp, ih ht]
    · have hall : ∀ b ∈ t, p b = false := by
        intro b hb
        by_contra hcon
        exact hp (ha b hb (by simpa using hcon))
      have h1 : t.filter p = [] := by
        rw [List.filter_eq_nil_iff]
        intro b hb
        simp [hall b hb]
      have h2 : t.filter (fun a => !p a) = t := by
        rw [List.filter_eq_self]
        intro b hb
        simp [hall b hb]
      simp [List.filter_cons, hp, h1, h2]

theorem filter_lt_range4 {ndim : Nat} (h4 : ndim ≤ 4) :
    (List.range 4).filter (fun a => decide (a < ndim)) = List.range ndim := by
  interval_cases ndim <;> rfl

theorem take_eq_map_getD (l : List Int) {n : Nat} (h : n ≤ l.length) :
    (List.range n).map (fun a => l.getD a 0) = l.take n := by
  apply List.ext_getElem
  · simp [h]
  · intro i h1 h2
    have hi : i < n := by simpa using h1
    simp only [List.getElem_map, List.getElem_range, List.getElem_take]
    exact List.getD_eq_getElem l 0 (by omega)

/-- The keys along an index array, as a list sorted in descending order. -/
theorem sorted_keys {key : List Int} {index : List Nat}
    (h : ∀ p q, p < q → q < index.length → keyAt key index q ≤ keyAt key index p) :
    (index.map (fun a => key.getD a 0)).Sorted (fun x y => x ≥ y) := by
  unfold List.Sorted
  rw [List.pairwise_iff_getElem]
  intro p q hp hq hpq
  have hq' : q < index.length := by simpa using hq
  have hp' : p < index.length := by omega
  have := h p q hpq hq'
  unfold keyAt at this
  rw [List.getD_eq_getElem index 0 hq', List.getD_eq_getElem index 0 hp'] at this
  simpa using this

/-- Under the hypotheses of the alignment, the first `ndim` entries of the sorted order
of the physical axes are the axes `0 .. ndim-1`, and their extents are those of the
logical axes in sorted order. -/
theorem alignment_facts {bgl_dims dims : List Int} {ndim : Nat} (h4 : ndim ≤ 4)
    (hlen : bgl_dims.length = 4) (hrearr : (bgl_dims.take ndim).Perm dims)
    (hsmall : ∀ a, a < 4 → ndim ≤ a → ∀ x ∈ dims, bgl_dims.getD a 0 < x) :
    ((sort bgl_dims 4).take ndim).Perm (List.range ndim)
    ∧ ∀ i, i < ndim →
        keyAt bgl_dims (sort bgl_dims 4) i = keyAt dims (sort dims ndim) i := by
  have hP := sort_isPermArr bgl_dims 4
  have hPperm := perm_of_isPermArr hP
  have hL := sort_isPermArr dims ndim
  have hLperm := perm_of_isPermArr hL
  have hdlen : dims.length = ndim := by
    have := hrearr.length_eq
    simp [hlen] at this
    omega
  -- a physical extent on an axis below `ndim` is an entry of `dims`
  have hmem : ∀ b, b < ndim → bgl_dims.getD b 0 ∈ dims := by
    intro b hb
    apply hrearr.subset
    rw [List.getD_eq_getElem bgl_dims 0 (by omega)]
    rw [List.mem_take_iff_getElem]
    exact ⟨b, by simp [hlen]; omega, rfl⟩
  -- no axis at or above `ndim` precedes an axis below `ndim`
  have hpw : (sort bgl_dims 4).Pairwise
      (fun a b => decide (b < ndim) = true → decide (a < ndim) = true) := by
    rw [List.pairwise_iff_getElem]
    intro p q hp hq hpq hb
    rw [hP.1] at hp hq
    have hb' : (sort bgl_dims 4).getD q 0 < ndim := by
      rw [List.getD_eq_getElem _ 0 (by rw [hP.1]; exact hq)]
      simpa using hb
    by_contra hcon
    have ha' : ndim ≤ (sort bgl_dims 4).getD p 0 := by
      rw [List.getD_eq_getElem _ 0 (by rw [hP.1]; exact hp)]
      simpa using hcon
    have h1 := hsmall _ (hP.2.1 p hp) ha' _ (hmem _ hb')
    have h2 := sort_descending bgl_dims 4 hpq hq
    unfold keyAt at h2
    omega
  have hsplit := filter_append_of_pairwise (fun a => decide (a < ndim)) (sort bgl_dims 4) hpw
  have hfilt : ((sort bgl_dims 4).filter (fun a => decide (a < ndim))).Perm (List.range ndim) := by
    have := hPperm.filter (fun a => decide (a < ndim))
    rw [filter_lt_range4 h4] at this
    exact this
  have hflen : ((sort bgl_dims 4).filter (fun a => decide (a < ndim))).length = ndim := by
    simpa using hfilt.length_eq
  have htake : (sort bgl_dims 4).take ndim
      = (sort bgl_dims 4).filter (fun a => decide (a < ndim)) := by
    have h := List.take_left ((sort bgl_dims 4).filter (fun a => decide (a < ndim)))
      ((sort bgl_dims 4).filter (fun a => !decide (a < ndim)))
    rw [hsplit, hflen] at h
    exact h
  have hQ : ((sort bgl_dims 4).take ndim).Perm (List.range ndim) := by
    rw [htake]; exact hfilt
  refine ⟨hQ, ?_⟩
  -- the two lists of keys are sorted rearrangements of `dims`
  have hX : (((sort bgl_dims 4).take ndim).map (fun a => bgl_dims.getD a 0)).Perm dims := by
    have := hQ.map (fun a => bgl_dims.getD a 0)
    rw [take_eq_map_getD bgl_dims (by omega : ndim ≤ bgl_dims.length)] at this
    exact this.trans hrearr
  have hY : ((sort dims ndim).map (fun a => dims.getD a 0)).Perm dims := by
    have := hLperm.map (fun a => dims.getD a 0)
    rw [← hdlen, map_getD_range] at this
    rw [← hdlen]
    exact this
  have hXs : (((sort bgl_dims 4).take ndim).map (fun a => bgl_dims.getD a 0)).Sorted
      (fun x y => x ≥ y) := by
    rw [List.map_take]
    exact List.Pairwise.sublist (List.take_sublist _ _)
      (sorted_keys (fun p q hpq hq => sort_descending bgl_dims 4 hpq (by rw [← hP.1]; exact hq)))
  have hYs : ((sort dims ndim).map (fun a => dims.getD a 0)).Sorted (fun x y => x ≥ y) :=
    sorted_keys (fun p q hpq hq => sort_descending dims ndim hpq (by rw [← hL.1]; exact hq))
  have heq := List.eq_of_perm_of_sorted (hX.trans hY.symm) hXs hYs
  intro i hi
  have hi4 : i < (sort bgl_dims 4).length := by rw [hP.1]; omega
  have hiL : i < (sort dims ndim).length := by rw [hL.1]; exact hi
  have h1 : (((sort bgl_dims 4).take ndim).map (fun a => bgl_dims.getD a 0))[i]?
      = some (keyAt bgl_dims (sort bgl_dims 4) i) := by
    unfold keyAt
    rw [List.getD_eq_getElem _ 0 hi4]
    simp [List.getElem?_take, hi, hi4]
  have h2 : ((sort dims ndim).map (fun a => dims.getD a 0))[i]?
      = some (keyAt dims (sort dims ndim) i) := by
    unfold keyAt
    rw [List.getD_eq_getElem _ 0 hiL]
    simp [hiL]
  rw [heq, h2] at h1
  exact (Option.some.inj h1).symm

theorem take_getD_nat (l : List Nat) {n i : Nat} (hi : i < n) :
    (l.take n).getD i 0 = l.getD i 0 := by
  simp [List.getD_eq_getElem?_getD, List.getElem?_take, hi]

/-- Under the hypotheses of the alignment, `dims[remap[a]]` is the physical extent of
axis `a`. -/
theorem remap_axes_bgl_aligned {bgl_dims dims : List Int} (fresh : Nat → Nat) {ndim : Nat}
    (h4 : ndim ≤ 4) (hlen : bgl_dims.length = 4) (hrearr : (bgl_dims.take ndim).Perm dims)
    (hsmall : ∀ a, a < 4 → ndim ≤ a → ∀ x ∈ dims, bgl_dims.getD a 0 < x)
    {a : Nat} (ha : a < ndim) :
    dims.getD ((remap_axes_bgl bgl_dims fresh dims ndim).getD a 0) 0 = bgl_dims.getD a 0 := by
  obtain ⟨hQ, hkeys⟩ := alignment_facts h4 hlen hrearr hsmall
  have hP := sort_isPermArr bgl_dims 4
  have htarget : ∀ i, i < ndim → remap_target (sort bgl_dims 4) i = (sort bgl_dims 4).getD i 0 := by
    intro i hi
    unfold remap_target
    rw [if_pos (by omega)]
  have hwrite : ∀ i, i < ndim →
      (remap_axes_bgl bgl_dims fresh dims ndim).getD (remap_target (sort bgl_dims 4) i) 0
        = (sort dims ndim).getD i 0 := by
    intro i hi
    unfold remap_axes_bgl
    refine scatter_getD (fun i j _ _ e => remap_target_inj bgl_dims e) ?_ ndim (le_refl _) i hi
    intro j hj
    rw [htarget j hj, ← take_getD_nat _ hj]
    simp only [List.length_map, List.length_range]
    exact perm_lt hQ hj
  obtain ⟨i, hi, e⟩ := perm_surj hQ ha
  rw [take_getD_nat _ hi] at e
  have h1 := hwrite i hi
  rw [htarget i hi, e] at h1
  have h2 := hkeys i hi
  unfold keyAt at h2
  rw [e] at h2
  rw [h1, ← h2]

/-! ## Claims on the codec -/

/-- C1. Round trip index -> coordinate -> index: for every `ndim`, every `dims` of `ndim`
extents that are all at least `1` and whose product is the node count, every `remap`
that is a permutation of `0 .. ndim-1`, every initial content of the output buffer and
every `int` `k` with `0 <= k < node_count`, `crtesn_pos (crtesn_coord (k)) = k`;
hence `QMP_get_node_number_from (QMP_get_logical_coordinates_from (k)) = k` in every
state holding that geometry and that remap. -/
theorem C1_index_coordinate_index (remap : List Nat) (dims coordf : List Int) (ndim : Nat)
    (node_count k : Int) (heap : Nat → Int) (s : Globals)
    (hperm : remap.Perm (List.range ndim)) (hlen : dims.length = ndim)
    (hdims : PositiveDims dims ndim) (hprod : dims.prod = node_count)
    (hbuf : coordf.length = ndim)
    (hk0 : 0 ≤ k) (hk1 : k < node_count) (hint : k ≤ INT_MAX)
    (hs1 : s.remap = remap) (hs2 : s.QMP_topo.dimension = ndim)
    (hs3 : s.QMP_topo.logical_size = dims) :
    crtesn_pos remap (crtesn_coord remap k coordf dims ndim) dims ndim = k
    ∧ QMP_get_node_number_from s (QMP_get_logical_coordinates_from heap s k) = k := by
  constructor
  · exact pos_coord_roundtrip hperm hlen hdims hbuf hk0 hint (by omega)
  · unfold QMP_get_node_number_from QMP_get_logical_coordinates_from
    rw [hs1, hs2, hs3, Int.toNat_ofNat]
    exact pos_coord_roundtrip hperm hlen hdims (by simp [malloc]) hk0 hint (by omega)

theorem C1_index_coordinate_index_witness :
    crtesn_pos [1, 0] (crtesn_coord [1, 0] 5 [7, 7] [2, 3] 2) [2, 3] 2 = 5
    ∧ QMP_get_node_number_from ⟨[1, 0], ⟨2, [2, 3], [], [], [], true⟩⟩
        (QMP_get_logical_coordinates_from (fun _ => 7)
          ⟨[1, 0], ⟨2, [2, 3], [], [], [], true⟩⟩ 5) = 5 :=
  C1_index_coordinate_index [1, 0] [2, 3] [7, 7] 2 6 5 (fun _ => 7)
    ⟨[1, 0], ⟨2, [2, 3], [], [], [], true⟩⟩
    (by decide) rfl (by unfold PositiveDims; decide) (by decide) rfl
    (by decide) (by decide) (by decide) rfl rfl rfl

/-- C2. Bijection: for every `dims` of `ndim` extents that are all at least `1` and whose
product is the node count (an `int`), and every permutation `remap`, the map
`k -> crtesn_coord (k)` on `0 <= k < node_count` is injective, every result is an array of
`ndim` entries with `0 <= c[i] < dims[i]` on every axis, and every array `c` of `ndim`
entries with `0 <= c[i] < dims[i]` on every axis is `crtesn_coord (k)` for some `k` in
`[0, node_count)`. -/
theorem C2_coordinate_bijection (remap : List Nat) (dims coordf : List Int) (ndim : Nat)
    (node_count : Int)
    (hperm : remap.Perm (List.range ndim)) (hlen : dims.length = ndim)
    (hdims : PositiveDims dims ndim) (hprod : dims.prod = node_count)
    (hint : node_count ≤ INT_MAX) (hbuf : coordf.length = ndim) :
    (∀ k₁ k₂ : Int, 0 ≤ k₁ → k₁ < node_count → 0 ≤ k₂ → k₂ < node_count →
        crtesn_coord remap k₁ coordf dims ndim = crtesn_coord remap k₂ coordf dims ndim →
        k₁ = k₂)
    ∧ (∀ k : Int, 0 ≤ k → k < node_count →
        (crtesn_coord remap k coordf dims ndim).length = ndim
        ∧ InGrid (crtesn_coord remap k coordf dims ndim) dims ndim)
    ∧ (∀ c : List Int, c.length = ndim → InGrid c dims ndim →
        ∃ k : Int, 0 ≤ k ∧ k < node_count ∧ crtesn_coord remap k coordf dims ndim = c) := by
  refine ⟨?_, ?_, ?_⟩
  · intro k₁ k₂ h10 h11 h20 h21 e
    have r1 := pos_coord_roundtrip hperm hlen hdims hbuf h10 (by omega) (by omega : k₁ < dims.prod)
    have r2 := pos_coord_roundtrip hperm hlen hdims hbuf h20 (by omega) (by omega : k₂ < dims.prod)
    rw [← r1, ← r2, e]
  · intro k h0 h1
    exact ⟨by rw [crtesn_coord_length, hbuf],
      crtesn_coord_inGrid hperm hdims hbuf h0 (by omega)⟩
  · intro c hclen hc
    have hp : dims.prod ≤ INT_MAX := by omega
    obtain ⟨h0, h1⟩ := pos_exact_range hperm hlen hdims hc
    refine ⟨crtesn_pos remap c dims ndim, ?_, ?_, ?_⟩
    · rw [crtesn_pos_exact hperm hlen hdims hc hp]; exact h0
    · rw [crtesn_pos_exact hperm hlen hdims hc hp]; omega
    · exact coord_pos_roundtrip hperm hlen hdims hclen hc hbuf hp

theorem C2_coordinate_bijection_witness :
    ∃ k : Int, 0 ≤ k ∧ k < 6 ∧ crtesn_coord [1, 0] k [7, 7] [2, 3] 2 = [1, 2] :=
  (C2_coordinate_bijection [1, 0] [2, 3] [7, 7] 2 6 (by decide) rfl
    (by unfold PositiveDims; decide) (by decide) (by decide) rfl).2.2 [1, 2] rfl
    (by unfold InGrid; decide)

/-- C3, counterexample. With extents `[65536, 65536]`, whose product `2^32` is not an
`int`, and the identity remap, the coordinate `[0, 32768]` of the grid is encoded to
`INT_MIN` and decoded to `[0, -32768]`. -/
theorem C3_coordinate_index_coordinate_counterexample :
    [0, 1].Perm (List.range 2)
    ∧ PositiveDims [65536, 65536] 2
    ∧ InGrid [0, 32768] [65536, 65536] 2
    ∧ crtesn_pos [0, 1] [0, 32768] [65536, 65536] 2 = -2147483648
    ∧ crtesn_coord [0, 1] (crtesn_pos [0, 1] [0, 32768] [65536, 65536] 2) [0, 0]
        [65536, 65536] 2 = [0, -32768]
    ∧ crtesn_coord [0, 1] (crtesn_pos [0, 1] [0, 32768] [65536, 65536] 2) [0, 0]
        [65536, 65536] 2 ≠ [0, 32768] := by
  refine ⟨by decide, by unfold PositiveDims; decide, by unfold InGrid; decide, by decide,
    by decide, by decide⟩

/-- C3, amended. Round trip coordinate -> index -> coordinate: for every `dims` of `ndim`
extents that are all at least `1` and whose product does not exceed `INT_MAX`, every
permutation `remap`, and every array `c` of `ndim` entries with `0 <= c[i] < dims[i]` on
every axis, `crtesn_coord (crtesn_pos (c)) = c`. -/
theorem C3_coordinate_index_coordinate (remap : List Nat) (dims c coordf : List Int)
    (ndim : Nat)
    (hperm : remap.Perm (List.range ndim)) (hlen : dims.length = ndim)
    (hdims : PositiveDims dims ndim) (hprod : dims.prod ≤ INT_MAX)
    (hclen : c.length = ndim) (hc : InGrid c dims ndim) (hbuf : coordf.length = ndim) :
    crtesn_coord remap (crtesn_pos remap c dims ndim) coordf dims ndim = c :=
  coord_pos_roundtrip hperm hlen hdims hclen hc hbuf hprod

theorem C3_coordinate_index_coordinate_witness :
    crtesn_coord [1, 0] (crtesn_pos [1, 0] [1, 2] [2, 3] 2) [7, 7] [2, 3] 2 = [1, 2] :=
  C3_coordinate_index_coordinate [1, 0] [2, 3] [1, 2] [7, 7] 2 (by decide) rfl
    (by unfold PositiveDims; decide) (by decide) rfl (by unfold InGrid; decide) rfl

/-! ## Claims on the neighbour table -/

/-- C4, counterexample. (a) One axis of `2^30 + 1` nodes, node `2^30`: the call succeeds,
`c = [2^30]`, and `c[0] - 1 + dims[0] = 2^31` wraps, so that `neigh[0][0]` is
`-1073741823` and decodes to `[-1073741823]`, not to `[(c[0] - 1 + dims[0]) mod dims[0]]
= [1073741823]`. (b) Extents `[65536, 65537]` on `65536` nodes, node `0`: the running
product wraps to `65536`, the call succeeds, `c = [0, 0]`, and `neigh[0][1] = 0` (the
wrapped `65536 * 65536`) decodes to `[0, 0]`, not to
`[0, (c[1] - 1 + dims[1]) mod dims[1]] = [0, 65536]`. (c) The BG/L build on a partition of
`8 x 8 x 16` nodes, `dims = [32, 32]`, node `5`: the call succeeds, but line 141 wrote
`remap[2]` and never `remap[0]`, so that `remap = [1, 1]` is not a permutation,
`c = [7777, 0]` keeps fresh memory in entry `0`, and `neigh[1][0] = 0` decodes to
`[7777, 0]`, not to `[(c[0] + 1) mod dims[0], 0] = [2, 0]`. -/
theorem C4_neighbor_periodicity_counterexample :
    (QMP_declare_logical_topology remap_axes (fun _ => 0) machine_long undeclared
        [1073741825] 1 = (QMP_status_t.QMP_SUCCESS, declared_long)
     ∧ 0 ≤ machine_long.nodeid ∧ machine_long.nodeid < machine_long.num_nodes
     ∧ declared_long.QMP_topo.logical_coord
        = QMP_get_logical_coordinates_from (fun _ => 0) declared_long machine_long.nodeid
     ∧ QMP_get_logical_coordinates_from (fun _ => 0) declared_long
          (declared_long.QMP_topo.neigh0.getD 0 0) = [-1073741823]
     ∧ declared_long.QMP_topo.logical_coord.set 0
          ((declared_long.QMP_topo.logical_coord.getD 0 0 - 1 + [1073741825].getD 0 0)
            % [1073741825].getD 0 0) = [1073741823])
    ∧ (QMP_declare_logical_topology remap_axes (fun _ => 0) machine_wide undeclared
        [65536, 65537] 2 = (QMP_status_t.QMP_SUCCESS, declared_wide)
     ∧ 0 ≤ machine_wide.nodeid ∧ machine_wide.nodeid < machine_wide.num_nodes
     ∧ declared_wide.QMP_topo.logical_coord
        = QMP_get_logical_coordinates_from (fun _ => 0) declared_wide machine_wide.nodeid
     ∧ QMP_get_logical_coordinates_from (fun _ => 0) declared_wide
          (declared_wide.QMP_topo.neigh0.getD 1 0) = [0, 0]
     ∧ declared_wide.QMP_topo.logical_coord.set 1
          ((declared_wide.QMP_topo.logical_coord.getD 1 0 - 1 + [65536, 65537].getD 1 0)
            % [65536, 65537].getD 1 0) = [0, 65536])
    ∧ (QMP_declare_logical_topology (remap_axes_HAVE_BGL bgl_8x8x16 (fun _ => 1))
        (fun _ => 7777) machine_bgl undeclared [32, 32] 2
        = (QMP_status_t.QMP_SUCCESS, declared_bgl_square)
     ∧ 0 ≤ machine_bgl.nodeid ∧ machine_bgl.nodeid < machine_bgl.num_nodes
     ∧ dims_product [32, 32] 2 = machine_bgl.num_nodes
     ∧ ¬ (remap_axes_HAVE_BGL bgl_8x8x16 (fun _ => 1) [32, 32] 2).Perm (List.range 2)
     ∧ declared_bgl_square.QMP_topo.logical_coord
        = QMP_get_logical_coordinates_from (fun _ => 7777) declared_bgl_square
            machine_bgl.nodeid
     ∧ QMP_get_logical_coordinates_from (fun _ => 7777) declared_bgl_square
          (declared_bgl_square.QMP_topo.neigh1.getD 0 0) = [7777, 0]
     ∧ declared_bgl_square.QMP_topo.logical_coord.set 0
          ((declared_bgl_square.QMP_topo.logical_coord.getD 0 0 + 1) % [32, 32].getD 0 0)
        = [2, 0]) := by
  refine ⟨⟨by decide, by decide, by decide, by decide, by decide, by decide⟩,
    ⟨by decide, by decide, by decide, by decide, by decide, by decide⟩,
    ⟨by decide, by decide, by decide, by decide, by decide, by decide, by decide,
      by decide⟩⟩

/-- C4, amended. Neighbor periodicity: after a successful
`QMP_declare_logical_topology (dims, ndim)` in which `remap_axes` returned a permutation
of `0 .. ndim-1` (the identity `remap_axes` always does, the BG/L `remap_axes` does
whenever `ndim >= 4`) and whose product of extents does not exceed `INT_MAX`, on a node
with `0 <= nodeid < node_count` and local coordinate `c = crtesn_coord (nodeid)`, for
every axis `i < ndim` the coordinate decoded from
`neigh[1][i]` is `c` with entry `i` replaced by `(c[i] + 1) mod dims[i]`, and, provided
`c[i] - 1 + dims[i]` does not exceed `INT_MAX`, the coordinate decoded from `neigh[0][i]`
is `c` with entry `i` replaced by `(c[i] - 1 + dims[i]) mod dims[i]`. -/
theorem C4_neighbor_periodicity (remap_axes : List Int → Nat → List Nat)
    (heap heap' : Nat → Int) (m : QMP_machine) (s s' : Globals) (dims : List Int)
    (ndim : Int) (i : Nat)
    (hcall : QMP_declare_logical_topology remap_axes heap m s dims ndim
      = (QMP_status_t.QMP_SUCCESS, s'))
    (hperm : (remap_axes dims ndim.toNat).Perm (List.range ndim.toNat))
    (hn0 : 0 ≤ m.nodeid) (hn1 : m.nodeid < m.num_nodes)
    (hprod : dims_product dims ndim.toNat ≤ INT_MAX) (hi : i < ndim.toNat) :
    s'.QMP_topo.logical_coord = QMP_get_logical_coordinates_from heap s' m.nodeid
    ∧ QMP_get_logical_coordinates_from heap' s' (s'.QMP_topo.neigh1.getD i 0)
        = s'.QMP_topo.logical_coord.set i
            ((s'.QMP_topo.logical_coord.getD i 0 + 1) % dims.getD i 0)
    ∧ (s'.QMP_topo.logical_coord.getD i 0 - 1 + dims.getD i 0 ≤ INT_MAX →
        QMP_get_logical_coordinates_from heap' s' (s'.QMP_topo.neigh0.getD i 0)
          = s'.QMP_topo.logical_coord.set i
              ((s'.QMP_topo.logical_coord.getD i 0 - 1 + dims.getD i 0) % dims.getD i 0)) := by
  obtain ⟨_, hpos, hnum, _, rfl⟩ := declare_call hcall
  obtain ⟨hclen, hc, _, _⟩ := local_coord_facts heap hperm hpos hnum hn0 hn1
  obtain ⟨_, hget, _⟩ := stored_size_facts dims ndim.toNat
  have hci := hc i hi
  rw [hget i hi] at hci
  have hdi := hpos i hi
  have hmax : dims.getD i 0 ≤ INT_MAX := le_trans (dims_le_product hpos hi) hprod
  refine ⟨rfl, ?_, ?_⟩
  · rw [neigh1_getD remap_axes heap m dims hi, build_logical_coord,
      next_coord_eq hci.1 (by omega) hdi]
    exact (neighbour_decode heap' hperm hpos hprod hclen hc hi
      (Int.emod_nonneg _ (by omega)) (Int.emod_lt_of_pos _ (by omega))).1
  · intro hov
    rw [build_logical_coord] at hov
    rw [neigh0_getD remap_axes heap m dims hi, build_logical_coord,
      prev_coord_eq hci.1 hov hdi]
    exact (neighbour_decode heap' hperm hpos hprod hclen hc hi
      (Int.emod_nonneg _ (by omega)) (Int.emod_lt_of_pos _ (by omega))).1

theorem C4_neighbor_periodicity_witness :
    declared6.QMP_topo.logical_coord
      = QMP_get_logical_coordinates_from (fun _ => 0) declared6 machine6.nodeid
    ∧ QMP_get_logical_coordinates_from (fun _ => 9) declared6
          (declared6.QMP_topo.neigh1.getD 1 0)
        = declared6.QMP_topo.logical_coord.set 1
            ((declared6.QMP_topo.logical_coord.getD 1 0 + 1) % [2, 3].getD 1 0)
    ∧ (declared6.QMP_topo.logical_coord.getD 1 0 - 1 + [2, 3].getD 1 0 ≤ INT_MAX →
        QMP_get_logical_coordinates_from (fun _ => 9) declared6
            (declared6.QMP_topo.neigh0.getD 1 0)
          = declared6.QMP_topo.logical_coord.set 1
              ((declared6.QMP_topo.logical_coord.getD 1 0 - 1 + [2, 3].getD 1 0)
                % [2, 3].getD 1 0)) :=
  C4_neighbor_periodicity remap_axes (fun _ => 0) (fun _ => 9) machine6 undeclared declared6
    [2, 3] 2 1 (by decide) (by decide) (by decide) (by decide) (by decide) (by decide)

/-- C5, failing input. The BG/L build on a partition of `8 x 8 x 16` nodes,
`dims = [1024, 1]`, node `5`: `sort` orders the physical axes as `[2, 1, 0, 3]`, line 141
writes `remap[2]` (outside the array of two entries) and `remap[1]`, never `remap[0]`;
the call succeeds with `remap = [1, 1]`, and on the axis of extent `1` both neighbours are
`0`, not the node id `5`. -/
theorem C5_degenerate_axis_failing_input :
    sort (bgl_dims_of bgl_8x8x16) 4 = [2, 1, 0, 3]
    ∧ remap_writes (bgl_dims_of bgl_8x8x16) 2 = [2, 1]
    ∧ QMP_declare_logical_topology (remap_axes_HAVE_BGL bgl_8x8x16 (fun _ => 1))
        (fun _ => 7777) machine_bgl undeclared [1024, 1] 2
        = (QMP_status_t.QMP_SUCCESS, declared_bgl_line)
    ∧ 0 ≤ machine_bgl.nodeid ∧ machine_bgl.nodeid < machine_bgl.num_nodes
    ∧ ([1024, 1] : List Int).getD 1 0 = 1
    ∧ declared_bgl_line.QMP_topo.neigh0.getD 1 0 = 0
    ∧ declared_bgl_line.QMP_topo.neigh1.getD 1 0 = 0
    ∧ declared_bgl_line.QMP_topo.neigh0.getD 1 0 ≠ machine_bgl.nodeid
    ∧ declared_bgl_line.QMP_topo.neigh1.getD 1 0 ≠ machine_bgl.nodeid := by
  refine ⟨by decide, by decide, by decide, by decide, by decide, by decide, by decide,
    by decide, by decide, by decide⟩

/-- Degenerate axis, where `remap_axes` returned a permutation (the identity `remap_axes`
always does, the BG/L `remap_axes` does whenever `ndim >= 4`): after a successful
`QMP_declare_logical_topology` on a node with `0 <= nodeid < node_count`, for every axis
`i` with `dims[i] == 1`, `neigh[0][i] == neigh[1][i] == nodeid`. -/
theorem degenerate_axis_of_perm (remap_axes : List Int → Nat → List Nat) (heap : Nat → Int)
    (m : QMP_machine) (s s' : Globals) (dims : List Int) (ndim : Int) (i : Nat)
    (hcall : QMP_declare_logical_topology remap_axes heap m s dims ndim
      = (QMP_status_t.QMP_SUCCESS, s'))
    (hperm : (remap_axes dims ndim.toNat).Perm (List.range ndim.toNat))
    (hn0 : 0 ≤ m.nodeid) (hn1 : m.nodeid < m.num_nodes)
    (hi : i < ndim.toNat) (hone : dims.getD i 0 = 1) :
    s'.QMP_topo.neigh0.getD i 0 = m.nodeid ∧ s'.QMP_topo.neigh1.getD i 0 = m.nodeid := by
  obtain ⟨_, hpos, hnum, _, rfl⟩ := declare_call hcall
  obtain ⟨hclen, hc, hrt, _⟩ := local_coord_facts heap hperm hpos hnum hn0 hn1
  obtain ⟨_, hget, _⟩ := stored_size_facts dims ndim.toNat
  have hci := hc i hi
  rw [hget i hi, hone] at hci
  have hzero : (crtesn_coord (remap_axes dims ndim.toNat) m.nodeid (malloc heap ndim.toNat)
      ((List.range ndim.toNat).map (fun i => dims.getD i 0)) ndim.toNat).getD i 0 = 0 := by
    omega
  have hprev : prev_coord (crtesn_coord (remap_axes dims ndim.toNat) m.nodeid
      (malloc heap ndim.toNat) ((List.range ndim.toNat).map (fun i => dims.getD i 0))
      ndim.toNat) dims i = 0 := by
    unfold prev_coord c_mod
    rw [hone]
    exact Int.tmod_one _
  have hnext : next_coord (crtesn_coord (remap_axes dims ndim.toNat) m.nodeid
      (malloc heap ndim.toNat) ((List.range ndim.toNat).map (fun i => dims.getD i 0))
      ndim.toNat) dims i = 0 := by
    unfold next_coord c_mod
    rw [hone]
    exact Int.tmod_one _
  have hset := set_getD_self (crtesn_coord (remap_axes dims ndim.toNat) m.nodeid
    (malloc heap ndim.toNat) ((List.range ndim.toNat).map (fun i => dims.getD i 0))
    ndim.toNat) i (by rw [hclen]; exact hi)
  rw [hzero] at hset
  constructor
  · rw [neigh0_getD remap_axes heap m dims hi, build_logical_coord, hprev,
      copy_coord_eq hclen, hset]
    exact hrt
  · rw [neigh1_getD remap_axes heap m dims hi, build_logical_coord, hnext,
      copy_coord_eq hclen, hset]
    exact hrt

theorem degenerate_axis_of_perm_example :
    (⟨[0, 1], ⟨2, [1, 6], [0, 5], [5, 4], [5, 0], true⟩⟩ : Globals).QMP_topo.neigh0.getD 0 0
      = machine6.nodeid
    ∧ (⟨[0, 1], ⟨2, [1, 6], [0, 5], [5, 4], [5, 0], true⟩⟩ : Globals).QMP_topo.neigh1.getD 0 0
      = machine6.nodeid :=
  degenerate_axis_of_perm remap_axes (fun _ => 0) machine6 undeclared
    ⟨[0, 1], ⟨2, [1, 6], [0, 5], [5, 4], [5, 0], true⟩⟩ [1, 6] 2 0
    (by decide) (by decide) (by decide) (by decide) (by decide) (by decide)

/-! ## Claims on the declare operation -/

/-- The rejection cases listed by the specification, evaluated. -/
theorem rejection_examples :
    (QMP_declare_logical_topology remap_axes (fun _ => 0) machine6 undeclared [2, 3] (-1)).1
      = QMP_status_t.QMP_INVALID_ARG
    ∧ (QMP_declare_logical_topology remap_axes (fun _ => 0)
        ⟨5, 0, QMP_ictype_t.QMP_SWITCH, 0, []⟩ undeclared [2, 3] 2).1
      = QMP_status_t.QMP_INVALID_ARG
    ∧ (QMP_declare_logical_topology remap_axes (fun _ => 0)
        ⟨8, 0, QMP_ictype_t.QMP_MESH, 3, [2, 2, 2]⟩ undeclared [4, 2] 2).1
      = QMP_status_t.QMP_INVALID_ARG := by
  refine ⟨by decide, by decide, by decide⟩

/-- C6. Exact acceptance condition of `QMP_declare_logical_topology`: provided the product
of `dims` does not exceed `INT_MAX`, the call returns `QMP_INVALID_ARG` if and only if
`ndim < 0`, or some `dims[i] < 1` for `i < ndim`, or the product of `dims` differs from
the node count, or the interconnect is not `QMP_SWITCH` and (`ndim` differs from the
machine `ndim` or `dims[i]` differs from the machine `geom[i]` for some `i < ndim`);
otherwise it returns `QMP_SUCCESS`. In particular on a switch every geometry of positive
extents whose product equals the node count is accepted. -/
theorem C6_acceptance_condition (remap_axes : List Int → Nat → List Nat) (heap : Nat → Int)
    (m : QMP_machine) (s : Globals) (dims : List Int) (ndim : Int)
    (hov : dims_product dims ndim.toNat ≤ INT_MAX) :
    ((QMP_declare_logical_topology remap_axes heap m s dims ndim).1
        = QMP_status_t.QMP_INVALID_ARG
      ↔ (ndim < 0 ∨ (∃ i, i < ndim.toNat ∧ dims.getD i 0 < 1)
          ∨ dims_product dims ndim.toNat ≠ m.num_nodes
          ∨ (m.ic_type ≠ QMP_ictype_t.QMP_SWITCH
              ∧ (ndim ≠ m.ndim ∨ ∃ i, i < ndim.toNat ∧ dims.getD i 0 ≠ m.geom.getD i 0))))
    ∧ ((QMP_declare_logical_topology remap_axes heap m s dims ndim).1
          ≠ QMP_status_t.QMP_INVALID_ARG →
        (QMP_declare_logical_topology remap_axes heap m s dims ndim).1
          = QMP_status_t.QMP_SUCCESS)
    ∧ (m.ic_type = QMP_ictype_t.QMP_SWITCH → 0 ≤ ndim → PositiveDims dims ndim.toNat →
        dims_product dims ndim.toNat = m.num_nodes →
        (QMP_declare_logical_topology remap_axes heap m s dims ndim).1
          = QMP_status_t.QMP_SUCCESS) := by
  have hwrap : PositiveDims dims ndim.toNat →
      wrap32 (dims_product dims ndim.toNat) = dims_product dims ndim.toNat := by
    intro hpos
    have hP := dims_product_pos hpos
    exact wrap32_of_range (by unfold INT_MIN; omega) hov
  have hgm := geometry_mismatch_iff m dims ndim
  refine ⟨?_, ?_, ?_⟩
  · rw [status_invalid_iff, declare_success_iff]
    constructor
    · intro h
      by_contra hcon
      push_neg at hcon
      obtain ⟨h1, h2, h3, h4⟩ := hcon
      have hpos : PositiveDims dims ndim.toNat := fun i hi => h2 i hi
      apply h
      refine ⟨h1, hpos, by rw [hwrap hpos]; exact h3, ?_⟩
      cases hg : geometry_mismatch m dims ndim
      · rfl
      · obtain ⟨g1, g2⟩ := hgm.mp hg
        rcases g2 with g2 | ⟨i, hi, g2⟩
        · exact absurd (h4 g1).1 g2
        · exact absurd ((h4 g1).2 i hi) g2
    · rintro h ⟨h1, hpos, h3, h4⟩
      rcases h with h | ⟨i, hi, hlt⟩ | h | h
      · omega
      · have := hpos i hi
        omega
      · rw [hwrap hpos] at h3
        exact h h3
      · rw [hgm.mpr h] at h4
        cases h4
  · intro h
    cases hst : (QMP_declare_logical_topology remap_axes heap m s dims ndim).1
    · rfl
    · exact absurd hst h
  · intro hsw h0 hpos hprod
    rw [declare_success_iff]
    refine ⟨h0, hpos, by rw [hwrap hpos]; exact hprod, ?_⟩
    cases hg : geometry_mismatch m dims ndim
    · rfl
    · exact absurd hsw (hgm.mp hg).1

theorem C6_acceptance_condition_witness :
    dims_product [2, 3] 2 ≤ INT_MAX
    ∧ (QMP_declare_logical_topology remap_axes (fun _ => 0)
        ⟨5, 0, QMP_ictype_t.QMP_SWITCH, 0, []⟩ undeclared [2, 3] 2).1
      = QMP_status_t.QMP_INVALID_ARG :=
  ⟨by decide,
    (C6_acceptance_condition remap_axes (fun _ => 0) ⟨5, 0, QMP_ictype_t.QMP_SWITCH, 0, []⟩
      undeclared [2, 3] 2 (by decide)).1.mpr (Or.inr (Or.inr (Or.inl (by decide))))⟩

/-- C7. Atomicity on failure: whenever `QMP_declare_logical_topology` returns
`QMP_INVALID_ARG`, the globals after the call (dimension, logical_size, logical_coord,
both neighbour arrays, topology_declared, and the remap array) are the globals before
the call. -/
theorem C7_atomicity_on_failure (remap_axes : List Int → Nat → List Nat) (heap : Nat → Int)
    (m : QMP_machine) (s : Globals) (dims : List Int) (ndim : Int)
    (h : (QMP_declare_logical_topology remap_axes heap m s dims ndim).1
      = QMP_status_t.QMP_INVALID_ARG) :
    (QMP_declare_logical_topology remap_axes heap m s dims ndim).2 = s :=
  declare_snd_of_invalid h

theorem C7_atomicity_on_failure_witness :
    (QMP_declare_logical_topology remap_axes (fun _ => 0)
        ⟨8, 0, QMP_ictype_t.QMP_MESH, 3, [2, 2, 2]⟩ declared6 [4, 2] 2).1
      = QMP_status_t.QMP_INVALID_ARG
    ∧ (QMP_declare_logical_topology remap_axes (fun _ => 0)
        ⟨8, 0, QMP_ictype_t.QMP_MESH, 3, [2, 2, 2]⟩ declared6 [4, 2] 2).2 = declared6 :=
  ⟨by decide,
    C7_atomicity_on_failure remap_axes (fun _ => 0) ⟨8, 0, QMP_ictype_t.QMP_MESH, 3, [2, 2, 2]⟩
      declared6 [4, 2] 2 (by decide)⟩

/-- C8, counterexample. (a) One axis of `2^30 + 1` nodes, node `2^30`: the call succeeds
and `neigh[0][0] = -1073741823` is negative. (b) Extents `[65536, 65537]` on `65536`
nodes, node `0`: the running product wraps to `65536`, the call succeeds and
`neigh[1][1] = 65536` is not below the node count. (c) The BG/L build on a partition of
`8 x 8 x 16` nodes, `dims = [32, 32]`, node `5`: the call succeeds, but line 141 wrote
`remap[2]` and never `remap[0]`, so that `remap = [1, 1]` is not a permutation and
`logical_coord[0]` keeps the fresh memory `7777`, which is not below `logical_size[0] = 32`. -/
theorem C8_well_formed_state_counterexample :
    (QMP_declare_logical_topology remap_axes (fun _ => 0) machine_long undeclared
        [1073741825] 1 = (QMP_status_t.QMP_SUCCESS, declared_long)
     ∧ 0 ≤ machine_long.nodeid ∧ machine_long.nodeid < machine_long.num_nodes
     ∧ declared_long.QMP_topo.neigh0.getD 0 0 < 0)
    ∧ (QMP_declare_logical_topology remap_axes (fun _ => 0) machine_wide undeclared
        [65536, 65537] 2 = (QMP_status_t.QMP_SUCCESS, declared_wide)
     ∧ 0 ≤ machine_wide.nodeid ∧ machine_wide.nodeid < machine_wide.num_nodes
     ∧ ¬ declared_wide.QMP_topo.neigh1.getD 1 0 < machine_wide.num_nodes)
    ∧ (QMP_declare_logical_topology (remap_axes_HAVE_BGL bgl_8x8x16 (fun _ => 1))
        (fun _ => 7777) machine_bgl undeclared [32, 32] 2
        = (QMP_status_t.QMP_SUCCESS, declared_bgl_square)
     ∧ 0 ≤ machine_bgl.nodeid ∧ machine_bgl.nodeid < machine_bgl.num_nodes
     ∧ dims_product [32, 32] 2 = machine_bgl.num_nodes
     ∧ ¬ (remap_axes_HAVE_BGL bgl_8x8x16 (fun _ => 1) [32, 32] 2).Perm (List.range 2)
     ∧ ¬ declared_bgl_square.QMP_topo.logical_coord.getD 0 0
          < declared_bgl_square.QMP_topo.logical_size.getD 0 0) := by
  refine ⟨⟨by decide, by decide, by decide, by decide⟩,
    ⟨by decide, by decide, by decide, by decide⟩,
    ⟨by decide, by decide, by decide, by decide, by decide, by decide⟩⟩

/-- C8, amended. Well-formedness of the declared state: after every successful
`QMP_declare_logical_topology` in which `remap_axes` returned a permutation of
`0 .. ndim-1` (the identity `remap_axes` always does, the BG/L `remap_axes` does whenever
`ndim >= 4`), on a node with `0 <= nodeid < node_count`, the stored local coordinate
satisfies `0 <= logical_coord[i] < logical_size[i]` for every axis `i`; and,
provided the product of `dims` does not exceed `INT_MAX`, for every axis `i`,
`0 <= neigh[1][i] < node_count`, and `0 <= neigh[0][i] < node_count` whenever
`logical_coord[i] - 1 + dims[i]` does not exceed `INT_MAX`. -/
theorem C8_well_formed_state (remap_axes : List Int → Nat → List Nat) (heap : Nat → Int)
    (m : QMP_machine) (s s' : Globals) (dims : List Int) (ndim : Int)
    (hcall : QMP_declare_logical_topology remap_axes heap m s dims ndim
      = (QMP_status_t.QMP_SUCCESS, s'))
    (hperm : (remap_axes dims ndim.toNat).Perm (List.range ndim.toNat))
    (hn0 : 0 ≤ m.nodeid) (hn1 : m.nodeid < m.num_nodes) :
    (∀ i, i < ndim.toNat →
        0 ≤ s'.QMP_topo.logical_coord.getD i 0
        ∧ s'.QMP_topo.logical_coord.getD i 0 < s'.QMP_topo.logical_size.getD i 0)
    ∧ (dims_product dims ndim.toNat ≤ INT_MAX → ∀ i, i < ndim.toNat →
        (0 ≤ s'.QMP_topo.neigh1.getD i 0 ∧ s'.QMP_topo.neigh1.getD i 0 < m.num_nodes)
        ∧ (s'.QMP_topo.logical_coord.getD i 0 - 1 + dims.getD i 0 ≤ INT_MAX →
            0 ≤ s'.QMP_topo.neigh0.getD i 0
            ∧ s'.QMP_topo.neigh0.getD i 0 < m.num_nodes)) := by
  have hexact := fun hov => declare_product_exact hcall hov
  obtain ⟨_, hpos, hnum, _, rfl⟩ := declare_call hcall
  obtain ⟨hclen, hc, _, _⟩ := local_coord_facts heap hperm hpos hnum hn0 hn1
  obtain ⟨_, hget, hp⟩ := stored_size_facts dims ndim.toNat
  refine ⟨fun i hi => hc i hi, ?_⟩
  intro hprod i hi
  have hnodes : dims_product dims ndim.toNat = m.num_nodes := by
    rw [← hp]
    exact hexact hprod
  have hci := hc i hi
  rw [hget i hi] at hci
  have hdi := hpos i hi
  have hmax : dims.getD i 0 ≤ INT_MAX := le_trans (dims_le_product hpos hi) hprod
  constructor
  · rw [neigh1_getD remap_axes heap m dims hi, build_logical_coord,
      next_coord_eq hci.1 (by omega) hdi, ← hnodes]
    exact (neighbour_decode heap hperm hpos hprod hclen hc hi
      (Int.emod_nonneg _ (by omega)) (Int.emod_lt_of_pos _ (by omega))).2
  · intro hov
    rw [build_logical_coord] at hov
    rw [neigh0_getD remap_axes heap m dims hi, build_logical_coord,
      prev_coord_eq hci.1 hov hdi, ← hnodes]
    exact (neighbour_decode heap hperm hpos hprod hclen hc hi
      (Int.emod_nonneg _ (by omega)) (Int.emod_lt_of_pos _ (by omega))).2

theorem C8_well_formed_state_witness :
    (0 ≤ declared6.QMP_topo.neigh1.getD 1 0 ∧ declared6.QMP_topo.neigh1.getD 1 0 < 6)
    ∧ (0 ≤ declared6.QMP_topo.neigh0.getD 1 0 ∧ declared6.QMP_topo.neigh0.getD 1 0 < 6) :=
  ⟨((C8_well_formed_state remap_axes (fun _ => 0) machine6 undeclared declared6 [2, 3] 2
      (by decide) (by decide) (by decide) (by decide)).2 (by decide) 1 (by decide)).1,
   ((C8_well_formed_state remap_axes (fun _ => 0) machine6 undeclared declared6 [2, 3] 2
      (by decide) (by decide) (by decide) (by decide)).2 (by decide) 1 (by decide)).2
      (by decide)⟩

/-- C9. Success postcondition of `QMP_declare_logical_topology`: when it returns
`QMP_SUCCESS`, `topology_declared` is true, `dimension == ndim`, `logical_size` has `ndim`
entries with `logical_size[i] == dims[i]` for every `i < ndim`, `remap` is the freshly
resolved one, and `logical_coord` is `crtesn_coord (nodeid)` computed with the stored
sizes and that remap; the four query functions return exactly these values. -/
theorem C9_success_postcondition (remap_axes : List Int → Nat → List Nat) (heap : Nat → Int)
    (m : QMP_machine) (s s' : Globals) (dims : List Int) (ndim : Int)
    (hcall : QMP_declare_logical_topology remap_axes heap m s dims ndim
      = (QMP_status_t.QMP_SUCCESS, s')) :
    QMP_logical_topology_is_declared s' = true
    ∧ QMP_get_logical_number_of_dimensions s' = ndim
    ∧ (QMP_get_logical_dimensions s').length = ndim.toNat
    ∧ (∀ i, i < ndim.toNat → (QMP_get_logical_dimensions s').getD i 0 = dims.getD i 0)
    ∧ s'.remap = remap_axes dims ndim.toNat
    ∧ QMP_get_logical_coordinates s'
        = crtesn_coord s'.remap m.nodeid (malloc heap ndim.toNat)
            (QMP_get_logical_dimensions s') ndim.toNat
    ∧ QMP_logical_topology_is_declared s' = s'.QMP_topo.topology_declared
    ∧ QMP_get_logical_number_of_dimensions s' = s'.QMP_topo.dimension
    ∧ QMP_get_logical_dimensions s' = s'.QMP_topo.logical_size
    ∧ QMP_get_logical_coordinates s' = s'.QMP_topo.logical_coord := by
  obtain ⟨_, _, _, _, rfl⟩ := declare_call hcall
  obtain ⟨hl, hget, _⟩ := stored_size_facts dims ndim.toNat
  exact ⟨rfl, rfl, hl, hget, rfl, rfl, rfl, rfl, rfl, rfl⟩

theorem C9_success_postcondition_witness :
    QMP_logical_topology_is_declared declared6 = true
    ∧ QMP_get_logical_number_of_dimensions declared6 = 2
    ∧ QMP_get_logical_dimensions declared6 = [2, 3]
    ∧ QMP_get_logical_coordinates declared6
        = crtesn_coord declared6.remap machine6.nodeid (malloc (fun _ => 0) 2)
            (QMP_get_logical_dimensions declared6) 2 :=
  ⟨(C9_success_postcondition remap_axes (fun _ => 0) machine6 undeclared declared6 [2, 3] 2
      (by decide)).1,
   (C9_success_postcondition remap_axes (fun _ => 0) machine6 undeclared declared6 [2, 3] 2
      (by decide)).2.1,
   by decide,
   (C9_success_postcondition remap_axes (fun _ => 0) machine6 undeclared declared6 [2, 3] 2
      (by decide)).2.2.2.2.2.1⟩

/-- C10, failing input. On a switch of two nodes the request `dims = [3, 1431655766]`
is accepted: the running product `3 * 1431655766 = 2^32 + 2` wraps to `2`, which equals
the node count, while the exact product of the stored `logical_size` is `4294967298`. -/
theorem C10_geometry_invariant_failing_input :
    check_lengths [3, 1431655766] (List.range 2) 1 = some 2
    ∧ (QMP_declare_logical_topology remap_axes (fun _ => 0)
        ⟨2, 1, QMP_ictype_t.QMP_SWITCH, 0, []⟩ undeclared [3, 1431655766] 2).1
      = QMP_status_t.QMP_SUCCESS
    ∧ (QMP_declare_logical_topology remap_axes (fun _ => 0)
        ⟨2, 1, QMP_ictype_t.QMP_SWITCH, 0, []⟩ undeclared [3, 1431655766] 2).2.QMP_topo.logical_size
      = [3, 1431655766]
    ∧ (QMP_declare_logical_topology remap_axes (fun _ => 0)
        ⟨2, 1, QMP_ictype_t.QMP_SWITCH, 0, []⟩ undeclared
          [3, 1431655766] 2).2.QMP_topo.logical_size.prod = 4294967298
    ∧ (QMP_declare_logical_topology remap_axes (fun _ => 0)
        ⟨2, 1, QMP_ictype_t.QMP_SWITCH, 0, []⟩ undeclared
          [3, 1431655766] 2).2.QMP_topo.logical_size.prod ≠ 2 := by
  refine ⟨by decide, by decide, by decide, by decide, by decide⟩

/-! ## Claims on zero dimensions and on the identity remap -/

/-- C11, counterexample. On a switch with a single node the call with `ndim == 0` passes
every test (the empty product is `1`) and returns `QMP_SUCCESS`. -/
theorem C11_zero_dimension_counterexample :
    (QMP_declare_logical_topology remap_axes (fun _ => 0)
        ⟨1, 0, QMP_ictype_t.QMP_SWITCH, 0, []⟩ undeclared [] 0).1 = QMP_status_t.QMP_SUCCESS
    ∧ (QMP_declare_logical_topology remap_axes (fun _ => 0)
        ⟨1, 0, QMP_ictype_t.QMP_SWITCH, 0, []⟩ undeclared [] 0).1
      ≠ QMP_status_t.QMP_INVALID_ARG := by
  refine ⟨by decide, by decide⟩

/-- C11, amended. Zero dimension count: `QMP_declare_logical_topology` called with
`ndim == 0` returns `QMP_INVALID_ARG` exactly when the node count is not `1`, or the
interconnect is not a switch and the machine `ndim` is not `0`; otherwise (a single node
on a switch, or on a machine of dimension `0`) it returns `QMP_SUCCESS`. -/
theorem C11_zero_dimension (remap_axes : List Int → Nat → List Nat) (heap : Nat → Int)
    (m : QMP_machine) (s : Globals) (dims : List Int) :
    ((QMP_declare_logical_topology remap_axes heap m s dims 0).1
        = QMP_status_t.QMP_INVALID_ARG
      ↔ (m.num_nodes ≠ 1 ∨ (m.ic_type ≠ QMP_ictype_t.QMP_SWITCH ∧ m.ndim ≠ 0)))
    ∧ ((QMP_declare_logical_topology remap_axes heap m s dims 0).1
        = QMP_status_t.QMP_SUCCESS
      ↔ (m.num_nodes = 1 ∧ (m.ic_type = QMP_ictype_t.QMP_SWITCH ∨ m.ndim = 0))) := by
  refine ⟨?_, declare_zero_success_iff remap_axes heap m s dims⟩
  rw [status_invalid_iff, declare_zero_success_iff]
  constructor
  · intro h
    by_contra hcon
    push_neg at hcon
    apply h
    refine ⟨hcon.1, ?_⟩
    by_cases hsw : m.ic_type = QMP_ictype_t.QMP_SWITCH
    · exact Or.inl hsw
    · exact Or.inr (hcon.2 hsw)
  · rintro h ⟨h1, h2⟩
    rcases h with h | ⟨h3, h4⟩
    · exact h h1
    · rcases h2 with h2 | h2
      · exact h3 h2
      · exact h4 h2

/-- C12. Closed form of decode under the identity remap (first axis varies fastest):
with the identity `remap_axes`, for every `dims` with all `dims[i] >= 1`, every initial
content of the output buffer and every `int` `k >= 0`,
`crtesn_coord (k)[i] == (k / (dims[0] * ... * dims[i-1])) mod dims[i]` for every axis `i`;
with `dims = [2,2,2]`, node id `5` decodes to `[1,0,1]` and `crtesn_pos ([1,0,1]) == 5`. -/
theorem C12_identity_closed_form (dims coordf : List Int) (ndim : Nat) (k : Int) (i : Nat)
    (hdims : PositiveDims dims ndim) (hbuf : coordf.length = ndim)
    (hk0 : 0 ≤ k) (hint : k ≤ INT_MAX) (hi : i < ndim) :
    (crtesn_coord (remap_axes dims ndim) k coordf dims ndim).getD i 0
        = (k / dims_product dims i) % dims.getD i 0
    ∧ crtesn_coord (remap_axes [2, 2, 2] 3) 5 (malloc (fun _ => 0) 3) [2, 2, 2] 3 = [1, 0, 1]
    ∧ crtesn_pos (remap_axes [2, 2, 2] 3) [1, 0, 1] [2, 2, 2] 3 = 5 := by
  refine ⟨?_, by decide, by decide⟩
  have h := crtesn_coord_digit (remap_axes_perm dims ndim) hdims hbuf hk0 hint hi
  rw [axis_identity dims hi, stride_identity dims (le_of_lt hi)] at h
  have hr : (remap_axes dims ndim).getD i 0 = i := range_getD hi
  rw [hr] at h
  exact h

theorem C12_identity_closed_form_witness :
    (crtesn_coord (remap_axes [2, 2, 2] 3) 5 [7, 7, 7] [2, 2, 2] 3).getD 2 0
        = (5 / dims_product [2, 2, 2] 2) % [2, 2, 2].getD 2 0
    ∧ crtesn_coord (remap_axes [2, 2, 2] 3) 5 (malloc (fun _ => 0) 3) [2, 2, 2] 3 = [1, 0, 1]
    ∧ crtesn_pos (remap_axes [2, 2, 2] 3) [1, 0, 1] [2, 2, 2] 3 = 5 :=
  C12_identity_closed_form [2, 2, 2] [7, 7, 7] 3 5 2 (by unfold PositiveDims; decide) rfl
    (by decide) (by decide) (by decide)

/-! ## Claims on the neighbour tables of all nodes -/

/-- C17, counterexample. One axis of `2^30 + 1` nodes (a valid geometry: the product is
the node count), node `a = 2^30 - 1`: `NEXT (a) = 2^30`, and on node `2^30` line 243
computes `2^30 - 1 + 2^30 + 1 = 2^31`, which wraps, so that `PREV (NEXT (a))` is
`-1073741823`, not `a`. -/
theorem C17_neighbor_consistency_counterexample :
    (QMP_declare_logical_topology remap_axes (fun _ => 0) machine_long undeclared
        [1073741825] 1).1 = QMP_status_t.QMP_SUCCESS
    ∧ PositiveDims [1073741825] 1
    ∧ dims_product [1073741825] 1 = machine_long.num_nodes
    ∧ (remap_axes [1073741825] 1).Perm (List.range 1)
    ∧ NEXT remap_axes (fun _ => 0) machine_long undeclared [1073741825] 1 0 1073741823
        = 1073741824
    ∧ PREV remap_axes (fun _ => 0) machine_long undeclared [1073741825] 1 0
        (NEXT remap_axes (fun _ => 0) machine_long undeclared [1073741825] 1 0 1073741823)
        = -1073741823
    ∧ PREV remap_axes (fun _ => 0) machine_long undeclared [1073741825] 1 0
        (NEXT remap_axes (fun _ => 0) machine_long undeclared [1073741825] 1 0 1073741823)
        ≠ 1073741823 := by
  refine ⟨by decide, by unfold PositiveDims; decide, by decide, by decide, by decide,
    by decide, by decide⟩

/-- C17, amended. Neighbor tables of different nodes are mutually consistent on axes of
at most `2^30` nodes: for every `dims` accepted by `QMP_declare_logical_topology` (all
`dims[i] >= 1`, interconnect test passed) whose exact product is the node count, every
axis resolver that returns a permutation, every axis `i` with `dims[i] <= 2^30` and every
node `a` in `[0, node_count)`, writing `NEXT_i (k)` and `PREV_i (k)` for the values
`neigh[1][i]` and `neigh[0][i]` that the call computes on the node with `nodeid == k`,
`PREV_i (NEXT_i (a)) == a` and `NEXT_i (PREV_i (a)) == a`. -/
theorem C17_neighbor_consistency (remap_axes : List Int → Nat → List Nat) (heap : Nat → Int)
    (m : QMP_machine) (s : Globals) (dims : List Int) (ndim : Int) (i : Nat) (a : Int)
    (hsucc : (QMP_declare_logical_topology remap_axes heap m s dims ndim).1
      = QMP_status_t.QMP_SUCCESS)
    (hprod : dims_product dims ndim.toNat = m.num_nodes)
    (hperm : (remap_axes dims ndim.toNat).Perm (List.range ndim.toNat))
    (hi : i < ndim.toNat) (ha0 : 0 ≤ a) (ha1 : a < m.num_nodes)
    (hdim : dims.getD i 0 ≤ 1073741824) :
    PREV remap_axes heap m s dims ndim i (NEXT remap_axes heap m s dims ndim i a) = a
    ∧ NEXT remap_axes heap m s dims ndim i (PREV remap_axes heap m s dims ndim i a) = a := by
  have hg := valid_of_success hsucc hprod hperm
  rw [← hprod] at ha1
  obtain ⟨hclen, _, _⟩ := grid_decode_facts heap hg ha0 ha1
  obtain ⟨hc0, hc1⟩ := grid_entry heap hg ha0 ha1 hi
  have hdi := hg.2.1 i hi
  have hbound : ∀ x : Int, 0 ≤ x → x < dims.getD i 0 → x - 1 + dims.getD i 0 ≤ INT_MAX := by
    intro x _ hx
    unfold INT_MAX
    omega
  have hilen : i < (decode_node (remap_axes dims ndim.toNat) heap dims ndim.toNat a).length := by
    rw [hclen]; exact hi
  constructor
  · obtain ⟨n0, n1, nd⟩ := NEXT_facts hsucc hg hi ha0 ha1
    obtain ⟨b0, b1⟩ := grid_entry heap hg n0 n1 hi
    obtain ⟨p0, p1, pd⟩ := PREV_facts hsucc hg hi n0 n1 (hbound _ b0 b1)
    apply grid_decode_inj heap hg p0 p1 ha0 ha1
    rw [pd, nd, getD_set_self _ _ _ hilen, List.set_set]
    have harith : (((decode_node (remap_axes dims ndim.toNat) heap dims ndim.toNat a).getD i 0
        + 1) % dims.getD i 0 - 1 + dims.getD i 0) % dims.getD i 0
        = (decode_node (remap_axes dims ndim.toNat) heap dims ndim.toNat a).getD i 0 := by
      rw [show ∀ x : Int, x - 1 + dims.getD i 0 = x + (dims.getD i 0 - 1) from
        fun x => by ring, Int.emod_add_emod,
        show ∀ x : Int, x + 1 + (dims.getD i 0 - 1) = x + dims.getD i 0 from
        fun x => by ring, Int.add_emod_self, Int.emod_eq_of_lt hc0 hc1]
    rw [harith, set_getD_self _ _ hilen]
  · obtain ⟨p0, p1, pd⟩ := PREV_facts hsucc hg hi ha0 ha1 (hbound _ hc0 hc1)
    obtain ⟨n0, n1, nd⟩ := NEXT_facts hsucc hg hi p0 p1
    apply grid_decode_inj heap hg n0 n1 ha0 ha1
    rw [nd, pd, getD_set_self _ _ _ hilen, List.set_set]
    have harith : (((decode_node (remap_axes dims ndim.toNat) heap dims ndim.toNat a).getD i 0
        - 1 + dims.getD i 0) % dims.getD i 0 + 1) % dims.getD i 0
        = (decode_node (remap_axes dims ndim.toNat) heap dims ndim.toNat a).getD i 0 := by
      rw [Int.emod_add_emod,
        show ∀ x : Int, x - 1 + dims.getD i 0 + 1 = x + dims.getD i 0 from
        fun x => by ring, Int.add_emod_self, Int.emod_eq_of_lt hc0 hc1]
    rw [harith, set_getD_self _ _ hilen]

theorem C17_neighbor_consistency_witness :
    PREV remap_axes (fun _ => 0) machine6 undeclared [2, 3] 2 1
        (NEXT remap_axes (fun _ => 0) machine6 undeclared [2, 3] 2 1 5) = 5
    ∧ NEXT remap_axes (fun _ => 0) machine6 undeclared [2, 3] 2 1
        (PREV remap_axes (fun _ => 0) machine6 undeclared [2, 3] 2 1 5) = 5 :=
  C17_neighbor_consistency remap_axes (fun _ => 0) machine6 undeclared [2, 3] 2 1 5
    (by decide) (by decide) (by decide) (by decide) (by decide) (by decide) (by decide)

/-- C18. Each axis is a cycle of length exactly `dims[i]`: for every `dims` accepted by
`QMP_declare_logical_topology` (all `dims[i] >= 1`, interconnect test passed) whose exact
product is the node count, every axis resolver that returns a permutation, every axis `i`
and every node `k` in `[0, node_count)`, following the NEXT neighbor along axis `i` (the
value `neigh[1][i]` that the call computes on each visited node) exactly `dims[i]` times
starting from `k` returns to `k`, and for every `t` with `0 < t < dims[i]` following it
`t` times yields a node different from `k`. -/
theorem C18_axis_cycle (remap_axes : List Int → Nat → List Nat) (heap : Nat → Int)
    (m : QMP_machine) (s : Globals) (dims : List Int) (ndim : Int) (i : Nat) (k : Int)
    (hsucc : (QMP_declare_logical_topology remap_axes heap m s dims ndim).1
      = QMP_status_t.QMP_SUCCESS)
    (hprod : dims_product dims ndim.toNat = m.num_nodes)
    (hperm : (remap_axes dims ndim.toNat).Perm (List.range ndim.toNat))
    (hi : i < ndim.toNat) (hk0 : 0 ≤ k) (hk1 : k < m.num_nodes) :
    Nat.iterate (NEXT remap_axes heap m s dims ndim i) (dims.getD i 0).toNat k = k
    ∧ ∀ t : Nat, 0 < t → (t : Int) < dims.getD i 0 →
        Nat.iterate (NEXT remap_axes heap m s dims ndim i) t k ≠ k := by
  have hg := valid_of_success hsucc hprod hperm
  rw [← hprod] at hk1
  obtain ⟨hclen, _, _⟩ := grid_decode_facts heap hg hk0 hk1
  obtain ⟨hc0, hc1⟩ := grid_entry heap hg hk0 hk1 hi
  have hdi := hg.2.1 i hi
  have hilen : i < (decode_node (remap_axes dims ndim.toNat) heap dims ndim.toNat k).length := by
    rw [hclen]; exact hi
  constructor
  · obtain ⟨t0, t1, td⟩ := NEXT_iterate hsucc hg hi hk0 hk1 (dims.getD i 0).toNat
    apply grid_decode_inj heap hg t0 t1 hk0 hk1
    rw [td, Int.toNat_of_nonneg (by omega), Int.add_emod_self, Int.emod_eq_of_lt hc0 hc1,
      set_getD_self _ _ hilen]
  · intro t ht0 ht1 e
    obtain ⟨_, _, td⟩ := NEXT_iterate hsucc hg hi hk0 hk1 t
    rw [e] at td
    have hentry := congrArg (fun l => l.getD i 0) td
    simp only [] at hentry
    rw [getD_set_self _ _ _ hilen] at hentry
    have hdiv := Int.emod_add_ediv
      ((decode_node (remap_axes dims ndim.toNat) heap dims ndim.toNat k).getD i 0 + (t : Int))
      (dims.getD i 0)
    rw [← hentry] at hdiv
    have ht0' : (0 : Int) < (t : Int) := by exact_mod_cast ht0
    rcases le_or_lt
      (((decode_node (remap_axes dims ndim.toNat) heap dims ndim.toNat k).getD i 0 + (t : Int))
        / dims.getD i 0) 0 with hq | hq
    · have := Int.mul_le_mul_of_nonneg_left hq (show (0 : Int) ≤ dims.getD i 0 by omega)
      omega
    · have := Int.mul_le_mul_of_nonneg_left (show (1 : Int) ≤ _ from hq)
        (show (0 : Int) ≤ dims.getD i 0 by omega)
      omega

theorem C18_axis_cycle_witness :
    Nat.iterate (NEXT remap_axes (fun _ => 0) machine6 undeclared [2, 3] 2 1) 3 5 = 5
    ∧ Nat.iterate (NEXT remap_axes (fun _ => 0) machine6 undeclared [2, 3] 2 1) 1 5 ≠ 5 :=
  ⟨(C18_axis_cycle remap_axes (fun _ => 0) machine6 undeclared [2, 3] 2 1 5
      (by decide) (by decide) (by decide) (by decide) (by decide) (by decide)).1,
   (C18_axis_cycle remap_axes (fun _ => 0) machine6 undeclared [2, 3] 2 1 5
      (by decide) (by decide) (by decide) (by decide) (by decide) (by decide)).2 1
      (by decide) (by decide)⟩

/-! ## Claims on the BG/L axis remap -/

/-- C14. The hardware-aligned remap is a permutation: for every `ndim >= 4`, every `dims`,
every four physical extents and every initial content of the array, the array `remap`
produced by the BG/L `remap_axes` is a permutation of `0 .. ndim-1`, with
`remap[P[i]] == L[i]` for `i < 4`, where `P` and `L` are the index orders returned by
`sort` for the physical extents and for `dims`. -/
theorem C14_remap_is_permutation (bgl_dims : List Int) (fresh : Nat → Nat) (dims : List Int)
    (ndim : Nat) (h4 : 4 ≤ ndim) :
    (remap_axes_bgl bgl_dims fresh dims ndim).Perm (List.range ndim)
    ∧ ∀ i, i < 4 →
        (remap_axes_bgl bgl_dims fresh dims ndim).getD ((sort bgl_dims 4).getD i 0) 0
          = (sort dims ndim).getD i 0 := by
  refine ⟨perm_of_isPermArr (remap_axes_bgl_isPermArr bgl_dims fresh dims h4), ?_⟩
  intro i hi
  have h := remap_axes_bgl_getD bgl_dims fresh dims h4 (show i < ndim by omega)
  unfold remap_target at h
  rw [if_pos hi] at h
  exact h

theorem C14_remap_is_permutation_witness :
    (remap_axes_bgl [4, 4, 8, 2] (fun _ => 99) [2, 4, 8, 4, 3] 5).Perm (List.range 5)
    ∧ (remap_axes_bgl [4, 4, 8, 2] (fun _ => 99) [2, 4, 8, 4, 3] 5).getD
          ((sort [4, 4, 8, 2] 4).getD 0 0) 0
        = (sort [2, 4, 8, 4, 3] 5).getD 0 0 :=
  ⟨(C14_remap_is_permutation [4, 4, 8, 2] (fun _ => 99) [2, 4, 8, 4, 3] 5 (by decide)).1,
   (C14_remap_is_permutation [4, 4, 8, 2] (fun _ => 99) [2, 4, 8, 4, 3] 5 (by decide)).2 0
      (by decide)⟩

/-- C15, counterexample. With keys `[1, 1, 2]` the exchange of positions `0` and `2`
moves index `0` behind index `1`: the result is `[2, 1, 0]`, whose positions `1 < 2` hold
equal keys but the indices `1 > 0`. -/
theorem C15_sort_counterexample :
    sort [1, 1, 2] 3 = [2, 1, 0]
    ∧ (1 : Nat) < 2
    ∧ keyAt [1, 1, 2] (sort [1, 1, 2] 3) 1 = keyAt [1, 1, 2] (sort [1, 1, 2] 3) 2
    ∧ ¬ (sort [1, 1, 2] 3).getD 1 0 < (sort [1, 1, 2] 3).getD 2 0 := by
  refine ⟨by decide, by decide, by decide, by decide⟩

/-- C15, amended. Descending sort: for every `n` and every key array, the index array
produced by `sort (index, key, n)` is a permutation of `0 .. n-1` with
`key[index[i]] >= key[index[i+1]]` for all `i`, hence `key[index[i]] >= key[index[j]]`
for all positions `i < j`. (Entries with equal keys need not keep the order of their
indices.) -/
theorem C15_sort (key : List Int) (n : Nat) :
    (sort key n).Perm (List.range n)
    ∧ (∀ i, i + 1 < n →
        key.getD ((sort key n).getD i 0) 0 ≥ key.getD ((sort key n).getD (i + 1) 0) 0)
    ∧ (∀ i j, i < j → j < n →
        key.getD ((sort key n).getD i 0) 0 ≥ key.getD ((sort key n).getD j 0) 0) :=
  ⟨perm_of_isPermArr (sort_isPermArr key n),
   fun i hi => sort_descending key n (Nat.lt_succ_self i) hi,
   fun _ _ hij hj => sort_descending key n hij hj⟩

/-- C16, counterexample. Five logical axes `dims = [1, 1, 1, 1, 2]`: `sort` returns
`L = [4, 1, 2, 3, 0]`, and iteration `4` writes `remap[4] = L[4] = 0`, not `4`. -/
theorem C16_axes_beyond_physical_counterexample :
    sort [1, 1, 1, 1, 2] 5 = [4, 1, 2, 3, 0]
    ∧ remap_axes_bgl [1, 1, 1, 1] (fun _ => 99) [1, 1, 1, 1, 2] 5 = [4, 1, 2, 3, 0]
    ∧ (remap_axes_bgl [1, 1, 1, 1] (fun _ => 99) [1, 1, 1, 1, 2] 5).getD 4 0 ≠ 4 := by
  refine ⟨by decide, by decide, by decide⟩

/-- C16, amended. Axes beyond the physical dimension count are placed at their own
position in the sorted order: for every `ndim > 4`, every `dims` and every four physical
extents, the remap produced by the BG/L `remap_axes` satisfies `remap[i] == L[i]` for
every `i` with `4 <= i < ndim`, where `L` is the index order returned by `sort` for
`dims`. -/
theorem C16_axes_beyond_physical (bgl_dims : List Int) (fresh : Nat → Nat) (dims : List Int)
    (ndim i : Nat) (h4 : 4 < ndim) (hi4 : 4 ≤ i) (hi : i < ndim) :
    (remap_axes_bgl bgl_dims fresh dims ndim).getD i 0 = (sort dims ndim).getD i 0 := by
  have h := remap_axes_bgl_getD bgl_dims fresh dims (le_of_lt h4) hi
  unfold remap_target at h
  rw [if_neg (by omega)] at h
  exact h

theorem C16_axes_beyond_physical_witness :
    (remap_axes_bgl [1, 1, 1, 1] (fun _ => 99) [1, 1, 1, 1, 2] 5).getD 4 0
      = (sort [1, 1, 1, 1, 2] 5).getD 4 0 :=
  C16_axes_beyond_physical [1, 1, 1, 1] (fun _ => 99) [1, 1, 1, 1, 2] 5 4 (by decide)
    (by decide) (by decide)

/-- C19, failing input. One logical axis `dims = [2]` on physical extents `[1, 2, 1, 1]`:
`sort` orders the physical axes as `[1, 0, 2, 3]`, so that the only iteration writes
`remap[1]`, outside the array of one entry, and `remap[0]` keeps the content of the
fresh memory. -/
theorem C19_in_bounds_writes_failing_input :
    sort [1, 2, 1, 1] 4 = [1, 0, 2, 3]
    ∧ remap_writes [1, 2, 1, 1] 1 = [1]
    ∧ ¬ (remap_writes [1, 2, 1, 1] 1).getD 0 0 < 1
    ∧ ¬ (0 ∈ remap_writes [1, 2, 1, 1] 1)
    ∧ remap_axes_bgl [1, 2, 1, 1] (fun _ => 99) [2] 1 = [99] := by
  refine ⟨by decide, by decide, by decide, by decide, by decide⟩

/-- C13. Hardware alignment of the BG/L `remap_axes`: for every `ndim <= 4`, every `dims`
and every four physical extents such that the physical extents on axes `0 .. ndim-1` are
a rearrangement of `dims` and every physical extent on an axis `>= ndim` is strictly
smaller than every entry of `dims`, the resulting remap satisfies
`dims[remap[i]] == physical[i]` for every `i < ndim`; `dims = [8,2]` with physical extents
`[2,8,1,1]` gives `remap = [1,0]`. -/
theorem C13_hardware_alignment (bgl_dims dims : List Int) (fresh : Nat → Nat) (ndim i : Nat)
    (h4 : ndim ≤ 4) (hlen : bgl_dims.length = 4)
    (hrearr : (bgl_dims.take ndim).Perm dims)
    (hsmall : ∀ a, a < 4 → ndim ≤ a → ∀ x ∈ dims, bgl_dims.getD a 0 < x)
    (hi : i < ndim) :
    dims.getD ((remap_axes_bgl bgl_dims fresh dims ndim).getD i 0) 0 = bgl_dims.getD i 0
    ∧ remap_axes_bgl [2, 8, 1, 1] fresh [8, 2] 2 = [1, 0] :=
  ⟨remap_axes_bgl_aligned fresh h4 hlen hrearr hsmall hi, rfl⟩

theorem C13_hardware_alignment_witness :
    ([8, 2] : List Int).getD ((remap_axes_bgl [2, 8, 1, 1] (fun _ => 99) [8, 2] 2).getD 0 0) 0
        = ([2, 8, 1, 1] : List Int).getD 0 0
    ∧ remap_axes_bgl [2, 8, 1, 1] (fun _ => 99) [8, 2] 2 = [1, 0] :=
  C13_hardware_alignment [2, 8, 1, 1] [8, 2] (fun _ => 99) 2 0 (by decide) rfl (by decide)
    (by decide) (by decide)

end QMP
